import Mathlib

/-!
Verification of the artifact garbage-collection engine
(`tfx/orchestration/experimental/core/garbage_collection.py`).

The Python source is shallowly embedded: artifacts, events and executions
are records over `Nat`/`Int`/`String`; the metadata store and the
filesystem are explicit states; fallible code returns `Except String`.
-/

/-- A metadata property value (`int` or `string` payload of an MLMD value). -/
inductive PropValue where
  | intV (i : Int)
  | strV (s : String)
deriving DecidableEq, Repr

/-- The runtime type of a property value (Python `type(property_value)`). -/
inductive PropTag where
  | intT
  | strT
deriving DecidableEq, Repr

/-- `type(v)` for a property value. -/
def PropValue.tag : PropValue → PropTag
  | .intV _ => .intT
  | .strV _ => .strT

/-- Python comparison `<=` on homogeneous property values; heterogeneous
pairs are ordered int-before-string (such pairs are rejected earlier by the
homogeneity check, so their order is never observable). -/
def PropValue.le : PropValue → PropValue → Bool
  | .intV i, .intV j => decide (i ≤ j)
  | .strV s, .strV t => decide (s ≤ t)
  | .intV _, .strV _ => true
  | .strV _, .intV _ => false

/-- Artifact lifecycle state (`metadata_store_pb2.Artifact.State`). -/
inductive ArtifactState where
  | LIVE
  | DELETED
deriving DecidableEq, Repr

/-- An MLMD artifact record. -/
structure Artifact where
  id : Nat
  uri : String
  create_time_since_epoch : Int
  properties : List (String × PropValue)
  custom_properties : List (String × PropValue)
  state : ArtifactState
deriving DecidableEq, Repr

/-- Key lookup in a property map. -/
def lookupProp (props : List (String × PropValue)) (name : String) : Option PropValue :=
  (props.find? (fun p => decide (p.1 = name))).map (fun p => p.2)

/-- `_get_property_value`: typed properties take precedence over custom ones. -/
def _get_property_value (artifact : Artifact) (property_name : String) : Option PropValue :=
  match lookupProp artifact.properties property_name with
  | some v => some v
  | none => lookupProp artifact.custom_properties property_name

/-- `_is_artifact_external`: the derived `external` flag. -/
def _is_artifact_external (artifact : Artifact) : Bool :=
  decide (_get_property_value artifact "is_external" = some (.intV 1))

/-! ### Sorting

Python's `sorted` returns the unique permutation of its input that is
ordered by the comparison; we model it with insertion sort.  On the two
element types we sort (Int timestamps, distinct property values) the
order is total and antisymmetric, so any correct sort computes the same
list as Python's. -/

/-- Insert into a sorted list. -/
def insertSorted (le : α → α → Bool) (x : α) : List α → List α
  | [] => [x]
  | y :: ys => if le x y then x :: y :: ys else y :: insertSorted le x ys

/-- Insertion sort, modelling Python `sorted`. -/
def isort (le : α → α → Bool) : List α → List α
  | [] => []
  | x :: xs => insertSorted le x (isort le xs)

/-- `<=` on Int as a Bool comparison. -/
def intLe (a b : Int) : Bool := decide (a ≤ b)

/-- Python `sorted` on a list of ints. -/
def sortInt (l : List Int) : List Int := isort intLe l

/-- Python `sorted` on a list of property values. -/
def sortPV (l : List PropValue) : List PropValue := isort PropValue.le l

/-! ### Policies -/

/-- `GarbageCollectionPolicy.KeepMostRecentlyPublished`. -/
structure KeepMostRecentlyPublished where
  num_artifacts : Int
deriving DecidableEq, Repr

/-- One `KeepPropertyValueGroups.Grouping`; `keep_order` is the raw proto
enum value (0 = UNSPECIFIED, 1 = LARGEST, 2 = SMALLEST). -/
structure Grouping where
  property_name : String
  keep_num : Int
  keep_order : Int
deriving DecidableEq, Repr

/-- `GarbageCollectionPolicy.KeepPropertyValueGroups`. -/
structure KeepPropertyValueGroups where
  groupings : List Grouping
deriving DecidableEq, Repr

def KEEP_ORDER_UNSPECIFIED : Int := 0

def KEEP_ORDER_LARGEST : Int := 1

def KEEP_ORDER_SMALLEST : Int := 2

/-- The policy oneof: exactly one variant may be set; `unset` is neither. -/
inductive PolicyVariant where
  | unset
  | keep_most_recently_published (kmrp : KeepMostRecentlyPublished)
  | keep_property_value_groups (kpvg : KeepPropertyValueGroups)
deriving DecidableEq, Repr

/-- A garbage-collection policy (the oneof of the proto message). -/
structure GarbageCollectionPolicy where
  variant : PolicyVariant
deriving DecidableEq, Repr

/-- `_artifacts_not_most_recently_published`. -/
def _artifacts_not_most_recently_published (artifacts : List Artifact)
    (keep_most_recently_published : KeepMostRecentlyPublished) : List Artifact :=
  let num_artifacts := keep_most_recently_published.num_artifacts
  if num_artifacts ≤ 0 then
    artifacts
  else if (artifacts.length : Int) ≤ num_artifacts then
    []
  else
    let publish_times := sortInt (artifacts.map (fun a => a.create_time_since_epoch))
    let cutoff_publish_time := publish_times.getD (publish_times.length - num_artifacts.toNat) 0
    artifacts.filter (fun a => decide (a.create_time_since_epoch < cutoff_publish_time))

/-- The `i`-th smallest creation timestamp of a list of artifacts
(0-indexed; used to phrase the spec's cutoff). -/
def nthSmallestTimestamp (artifacts : List Artifact) (i : Nat) : Int :=
  (sortInt (artifacts.map (fun a => a.create_time_since_epoch))).getD i 0

/-- A concrete artifact for counterexamples and witnesses. -/
def mkArt (id : Nat) (ts : Int) : Artifact :=
  { id := id, uri := "", create_time_since_epoch := ts, properties := [],
    custom_properties := [], state := .LIVE }

/-! ### Events, executions and the metadata store (claim C1) -/

/-- Direction of an artifact-execution event. -/
inductive EventDirection where
  | input
  | output
deriving DecidableEq, Repr

/-- An MLMD event linking an artifact to an execution. -/
structure Event where
  artifact_id : Nat
  execution_id : Nat
  direction : EventDirection
deriving DecidableEq, Repr

/-- Execution lifecycle state (spec: active or terminal). -/
inductive ExecutionState where
  | active
  | terminal
deriving DecidableEq, Repr

/-- An MLMD execution record. -/
structure Execution where
  id : Nat
  state : ExecutionState
deriving DecidableEq, Repr

/-- Modelled from the spec: `event_lib.is_valid_input_event` (the module is
not under src/); the spec says the usage filter selects input-direction
events. -/
def is_valid_input_event (e : Event) : Bool :=
  decide (e.direction = EventDirection.input)

/-- Modelled from the spec: `execution_lib.is_execution_active` (the module
is not under src/); the spec says an execution is active or terminal. -/
def is_execution_active (e : Execution) : Bool :=
  decide (e.state = ExecutionState.active)

/-- The metadata store as consumed by this subsystem (spec section 6):
live output artifacts by pipeline/node/output key, events, executions. -/
structure MLMDStore where
  live_output_artifacts : String → String → List (String × List (List Artifact))
  events : List Event
  executions : List Execution

/-- Modelled from the spec: store query `get_executions_by_id`
(`mlmd_handle.store` is an external collaborator); missing ids are simply
absent from the result. -/
def get_executions_by_id (store : MLMDStore) (ids : List Nat) : List Execution :=
  store.executions.filter (fun x => decide (x.id ∈ ids))

/-- The Python dict `{e.id: e for e in executions}` keeps the last record
for a duplicated key, so lookup is last-match. -/
def execution_id_to_execution (executions : List Execution) (eid : Nat) : Option Execution :=
  executions.reverse.find? (fun x => decide (x.id = eid))

/-- The loop body of `_artifacts_not_in_use`: resolve each input event's
execution (a missing execution raises) and collect the artifact ids
consumed by active executions. -/
def computeInUseIds (executions : List Execution) : List Event → Except String (List Nat)
  | [] => .ok []
  | e :: rest =>
    match execution_id_to_execution executions e.execution_id with
    | none => .error "Could not find execution with id"
    | some x =>
      match computeInUseIds executions rest with
      | .error msg => .error msg
      | .ok ids => .ok (if is_execution_active x then e.artifact_id :: ids else ids)

/-- `_artifacts_not_in_use`. -/
def _artifacts_not_in_use (store : MLMDStore) (artifacts : List Artifact)
    (events : List Event) : Except String (List Artifact) :=
  let artifact_ids := artifacts.map (fun a => a.id)
  let input_events := events.filter
    (fun e => decide (e.artifact_id ∈ artifact_ids) && is_valid_input_event e)
  let execution_ids := input_events.map (fun e => e.execution_id)
  if execution_ids.isEmpty then
    .ok artifacts
  else
    let executions := get_executions_by_id store execution_ids
    match computeInUseIds executions input_events with
    | .error msg => .error msg
    | .ok in_use_artifact_ids =>
      .ok (artifacts.filter (fun a => decide (a.id ∉ in_use_artifact_ids)))

/-! ### KeepPropertyValueGroups evaluator -/

/-- `collections.defaultdict(list)` with insertion-ordered keys: append the
artifact to the bucket of its key, creating the bucket at the end if new. -/
def insertGrouped (m : List (Option PropValue × List Artifact))
    (key : Option PropValue) (a : Artifact) : List (Option PropValue × List Artifact) :=
  match m with
  | [] => [(key, [a])]
  | (k, bucket) :: rest =>
    if k = key then (k, bucket ++ [a]) :: rest
    else (k, bucket) :: insertGrouped rest key a

/-- Dict access `artifacts_by_property_value[key]` (empty if absent; the
evaluator only accesses present keys). -/
def lookupBucket (m : List (Option PropValue × List Artifact))
    (key : Option PropValue) : List Artifact :=
  match m.find? (fun q => decide (q.1 = key)) with
  | some q => q.2
  | none => []

/-- The inner loop of `_artifacts_not_kept_by_property_value_groups` for one
artifact group: partition by property value while checking that all non-null
values seen so far (state `st`, Python `all_property_value_type`) share one
runtime type. -/
def buildBuckets (p : String) (st : Option PropTag)
    (m : List (Option PropValue × List Artifact)) :
    List Artifact → Except String (Option PropTag × List (Option PropValue × List Artifact))
  | [] => .ok (st, m)
  | artifact :: rest =>
    match _get_property_value artifact p with
    | none => buildBuckets p st (insertGrouped m none artifact) rest
    | some v =>
      match st with
      | none => buildBuckets p (some v.tag) (insertGrouped m (some v) artifact) rest
      | some t =>
        if t = v.tag then
          buildBuckets p (some v.tag) (insertGrouped m (some v) artifact) rest
        else
          .error "Properties from the same group should have a homogenous type except NoneType."

/-- Bucket selection for one grouping over one partitioned group:
`keep_num <= 0` keeps every bucket; otherwise keep the buckets of the top
`keep_num` sorted non-null values (largest for UNSPECIFIED/LARGEST, smallest
for SMALLEST, error otherwise), then append the null bucket as lowest
priority when fewer than `keep_num` values were selected. -/
def selectBuckets (g : Grouping) (m : List (Option PropValue × List Artifact)) :
    Except String (List (List Artifact)) :=
  if g.keep_num ≤ 0 then
    .ok (m.map (fun q => q.2))
  else
    let sorted_property_values := sortPV (m.filterMap (fun q => q.1))
    let keepRes : Except String (List PropValue) :=
      if g.keep_order = KEEP_ORDER_UNSPECIFIED ∨ g.keep_order = KEEP_ORDER_LARGEST then
        .ok (sorted_property_values.drop (sorted_property_values.length - g.keep_num.toNat))
      else if g.keep_order = KEEP_ORDER_SMALLEST then
        .ok (sorted_property_values.take g.keep_num.toNat)
      else
        .error "Unknown keep_order in grouping"
    match keepRes with
    | .error msg => .error msg
    | .ok property_values_to_keep =>
      let selected := property_values_to_keep.map (fun v => lookupBucket m (some v))
      if (m.any (fun q => q.1.isNone)) = true ∧
          (property_values_to_keep.length : Int) < g.keep_num then
        .ok (selected ++ [lookupBucket m none])
      else
        .ok selected

/-- One grouping level applied to the worklist of artifact groups, threading
the `all_property_value_type` state across groups as the Python loop does. -/
def processGroupsForGrouping (g : Grouping) (st : Option PropTag) :
    List (List Artifact) → Except String (List (List Artifact))
  | [] => .ok []
  | group :: rest =>
    match buildBuckets g.property_name st [] group with
    | .error msg => .error msg
    | .ok (st2, m) =>
      match selectBuckets g m with
      | .error msg => .error msg
      | .ok selected =>
        match processGroupsForGrouping g st2 rest with
        | .error msg => .error msg
        | .ok rest2 => .ok (selected ++ rest2)

/-- The outer loop over groupings. -/
def processGroupings : List Grouping → List (List Artifact) →
    Except String (List (List Artifact))
  | [], artifact_groups => .ok artifact_groups
  | g :: gs, artifact_groups =>
    match processGroupsForGrouping g none artifact_groups with
    | .error msg => .error msg
    | .ok next_groups => processGroupings gs next_groups

/-- `_artifacts_not_kept_by_property_value_groups`. -/
def _artifacts_not_kept_by_property_value_groups (artifacts : List Artifact)
    (keep_property_value_groups : KeepPropertyValueGroups) :
    Except String (List Artifact) :=
  match processGroupings keep_property_value_groups.groupings [artifacts] with
  | .error msg => .error msg
  | .ok artifact_groups =>
    let artifacts_ids_to_keep :=
      (artifact_groups.map (fun group => group.map (fun a => a.id))).flatten
    .ok (artifacts.filter (fun a => decide (a.id ∉ artifacts_ids_to_keep)))

/-- `_artifacts_to_garbage_collect_for_policy`: dispatch on the policy
oneof; an unknown/unset policy is logged and contributes nothing. -/
def _artifacts_to_garbage_collect_for_policy (artifacts : List Artifact)
    (policy : GarbageCollectionPolicy) : Except String (List Artifact) :=
  match policy.variant with
  | .keep_most_recently_published kmrp =>
    .ok (_artifacts_not_most_recently_published artifacts kmrp)
  | .keep_property_value_groups kpvg =>
    _artifacts_not_kept_by_property_value_groups artifacts kpvg
  | .unset => .ok []

/-- `_artifacts_to_garbage_collect`.  The pipeline-group extension hook
(`garbage_collection_extensions.artifacts_not_in_use_in_pipeline_groups`,
not under src/) is modelled from the spec as an arbitrary caller-supplied
function `ext` of the policy and the candidate list. -/
def _artifacts_to_garbage_collect (store : MLMDStore)
    (ext : GarbageCollectionPolicy → List Artifact → List Artifact)
    (artifacts : List Artifact) (events : List Event)
    (policy : GarbageCollectionPolicy) : Except String (List Artifact) :=
  match _artifacts_to_garbage_collect_for_policy artifacts policy with
  | .error msg => .error msg
  | .ok result1 =>
    let result2 := ext policy result1
    _artifacts_not_in_use store result2 events

/-! ### Node-level orchestration -/

/-- `node.node_info`. -/
structure NodeInfo where
  id : String
deriving DecidableEq, Repr

/-- One output spec: `HasField('garbage_collection_policy')` plus the policy. -/
structure NodeOutputSpec where
  has_garbage_collection_policy : Bool
  garbage_collection_policy : GarbageCollectionPolicy
deriving DecidableEq, Repr

/-- The node proto view: declared id and output specs by output key. -/
structure Node where
  node_info : NodeInfo
  outputs : List (String × NodeOutputSpec)
deriving DecidableEq, Repr

/-- `task_lib.NodeUid` (pipeline uid flattened to its pipeline id). -/
structure NodeUid where
  pipeline_id : String
  node_id : String
deriving DecidableEq, Repr

/-- Ordered-dict lookup. -/
def assocLookup (m : List (String × α)) (k : String) : Option α :=
  (m.find? (fun q => decide (q.1 = k))).map (fun q => q.2)

/-- `_get_live_output_artifacts_for_node`: store query (modelled from the
spec, `store_ext` is not under src/) followed by flattening of the nested
per-key artifact lists. -/
def _get_live_output_artifacts_for_node (store : MLMDStore) (node_uid : NodeUid) :
    List (String × List Artifact) :=
  (store.live_output_artifacts node_uid.pipeline_id node_uid.node_id).map
    (fun q => (q.1, q.2.flatten))

/-- `_get_garbage_collection_policies_for_node`. -/
def _get_garbage_collection_policies_for_node (node : Node) :
    List (String × GarbageCollectionPolicy) :=
  (node.outputs.filter (fun q => q.2.has_garbage_collection_policy)).map
    (fun q => (q.1, q.2.garbage_collection_policy))

/-- The per-output-key loop of `get_artifacts_to_garbage_collect_for_node`. -/
def gcForKeys (store : MLMDStore)
    (ext : GarbageCollectionPolicy → List Artifact → List Artifact)
    (events : List Event) (artifacts_by_output_key : List (String × List Artifact)) :
    List (String × GarbageCollectionPolicy) → Except String (List Artifact)
  | [] => .ok []
  | (output_key, policy) :: rest =>
    match assocLookup artifacts_by_output_key output_key with
    | none => gcForKeys store ext events artifacts_by_output_key rest
    | some arts =>
      match _artifacts_to_garbage_collect store ext arts events policy with
      | .error msg => .error msg
      | .ok r =>
        match gcForKeys store ext events artifacts_by_output_key rest with
        | .error msg => .error msg
        | .ok rs => .ok (r ++ rs)

/-- `get_artifacts_to_garbage_collect_for_node`. -/
def get_artifacts_to_garbage_collect_for_node (store : MLMDStore)
    (ext : GarbageCollectionPolicy → List Artifact → List Artifact)
    (node_uid : NodeUid) (node : Node) : Except String (List Artifact) :=
  let policies_by_output_key := _get_garbage_collection_policies_for_node node
  if policies_by_output_key.isEmpty then
    .ok []
  else
    let artifacts_by_output_key := _get_live_output_artifacts_for_node store node_uid
    if artifacts_by_output_key.isEmpty then
      .ok []
    else
      let dedupped_artifact_ids : List Nat :=
        ((artifacts_by_output_key.map (fun q => q.2)).flatten.map (fun a => a.id)).dedup
      let events := store.events.filter
        (fun e => decide (e.artifact_id ∈ dedupped_artifact_ids))
      gcForKeys store ext events artifacts_by_output_key policies_by_output_key

/-! ### Purge executor (`garbage_collect_artifacts`) -/

/-- The filesystem contract (spec section 6), as an abstract environment:
whether a uri is a directory, whether removing it raises, and whether the
uri still exists when probed after a failed removal. -/
structure FileSystem where
  isdir : String → Bool
  rmtree_raises : String → Bool
  remove_raises : String → Bool
  exists_after : String → Bool

/-- Observable storage operations issued by the purge step. -/
inductive FsOp where
  | isdirCheck (uri : String)
  | rmtreeCall (uri : String)
  | removeCall (uri : String)
  | existsCheck (uri : String)
deriving DecidableEq, Repr

/-- The uri an operation touches. -/
def FsOp.uri : FsOp → String
  | .isdirCheck u => u
  | .rmtreeCall u => u
  | .removeCall u => u
  | .existsCheck u => u

/-- `_delete_artifact_uri`: attempt removal (recursive for a directory); on
an exception, report success exactly when the uri no longer exists.  Also
returns the trace of storage operations performed. -/
def _delete_artifact_uri (fs : FileSystem) (artifact : Artifact) : Bool × List FsOp :=
  if fs.isdir artifact.uri then
    if fs.rmtree_raises artifact.uri then
      if fs.exists_after artifact.uri then
        (false, [.isdirCheck artifact.uri, .rmtreeCall artifact.uri, .existsCheck artifact.uri])
      else
        (true, [.isdirCheck artifact.uri, .rmtreeCall artifact.uri, .existsCheck artifact.uri])
    else
      (true, [.isdirCheck artifact.uri, .rmtreeCall artifact.uri])
  else
    if fs.remove_raises artifact.uri then
      if fs.exists_after artifact.uri then
        (false, [.isdirCheck artifact.uri, .removeCall artifact.uri, .existsCheck artifact.uri])
      else
        (true, [.isdirCheck artifact.uri, .removeCall artifact.uri, .existsCheck artifact.uri])
    else
      (true, [.isdirCheck artifact.uri, .removeCall artifact.uri])

/-- The loop body of `garbage_collect_artifacts` for one artifact: external
artifacts are state-flipped with no storage call; internal artifacts are
state-flipped only when `_delete_artifact_uri` reports success. -/
def gcProcessArtifact (fs : FileSystem) (artifact : Artifact) : Artifact × List FsOp :=
  if _is_artifact_external artifact then
    ({artifact with state := .DELETED}, [])
  else
    let r := _delete_artifact_uri fs artifact
    (if r.1 then {artifact with state := .DELETED} else artifact, r.2)

/-- Result of one purge pass: the records handed to the single
`put_artifacts` batch write, the storage-operation trace, and whether the
batch write was issued at all (it is skipped for an empty input). -/
structure PurgeResult where
  written : List Artifact
  fs_ops : List FsOp
  store_write : Bool
deriving DecidableEq, Repr

/-- `garbage_collect_artifacts`. -/
def garbage_collect_artifacts (fs : FileSystem) (artifacts : List Artifact) : PurgeResult :=
  if artifacts.isEmpty then
    { written := [], fs_ops := [], store_write := false }
  else
    { written := artifacts.map (fun a => (gcProcessArtifact fs a).1),
      fs_ops := (artifacts.map (fun a => (gcProcessArtifact fs a).2)).flatten,
      store_write := true }

/-- `run_garbage_collection_for_node`: the id-mismatch wiring error is
raised before the error boundary; every failure inside the boundary is
caught, logged and suppressed (`.ok none`). -/
def run_garbage_collection_for_node (store : MLMDStore) (fs : FileSystem)
    (ext : GarbageCollectionPolicy → List Artifact → List Artifact)
    (node_uid : NodeUid) (node : Node) : Except String (Option PurgeResult) :=
  if node.node_info.id ≠ node_uid.node_id then
    .error "Node uids do not match for garbage collection"
  else
    match get_artifacts_to_garbage_collect_for_node store ext node_uid node with
    | .error _ => .ok none
    | .ok artifacts => .ok (some (garbage_collect_artifacts fs artifacts))

/-- Concrete input event for the C1 witness: artifact 1 read by execution 5. -/
def c1Event : Event := ⟨1, 5, .input⟩

/-- Concrete terminal execution for the C1 witness. -/
def c1Exec : Execution := ⟨5, .terminal⟩

/-- Concrete store for the C1 witness. -/
def c1Store : MLMDStore :=
  { live_output_artifacts := fun _ _ => [("out", [[mkArt 1 10]])],
    events := [c1Event], executions := [c1Exec] }

/-- Concrete node for the C1 witness: one output key whose policy deletes
everything (`KeepMostRecentlyPublished 0`). -/
def c1Node : Node :=
  { node_info := ⟨"n"⟩,
    outputs := [("out", ⟨true, ⟨.keep_most_recently_published ⟨0⟩⟩⟩)] }

/-! ### Claim C2: error propagation at the node boundary -/

/-- A trivial filesystem for witnesses. -/
def fsTriv : FileSystem :=
  { isdir := fun _ => false, rmtree_raises := fun _ => false,
    remove_raises := fun _ => false, exists_after := fun _ => false }

/-- A concrete external artifact. -/
def extArt : Artifact :=
  { id := 7, uri := "u", create_time_since_epoch := 5, properties := [],
    custom_properties := [("is_external", .intV 1)], state := .LIVE }

/-- A concrete internal artifact. -/
def intArt : Artifact :=
  { id := 8, uri := "v", create_time_since_epoch := 6, properties := [],
    custom_properties := [], state := .LIVE }

/-- A filesystem where removing "v" raises and "v" still exists afterwards. -/
def fsFail : FileSystem :=
  { isdir := fun _ => false, rmtree_raises := fun _ => false,
    remove_raises := fun u => decide (u = "v"), exists_after := fun u => decide (u = "v") }

/-- Artifact with an int-valued "span" property. -/
def hetIntArt : Artifact :=
  { id := 1, uri := "", create_time_since_epoch := 1,
    properties := [("span", .intV 1)], custom_properties := [], state := .LIVE }

/-- Artifact with a string-valued "span" property. -/
def hetStrArt : Artifact :=
  { id := 2, uri := "", create_time_since_epoch := 2,
    properties := [("span", .strV "x")], custom_properties := [], state := .LIVE }

/-- A property-group policy over "span". -/
def spanPolicy : GarbageCollectionPolicy :=
  ⟨.keep_property_value_groups ⟨[⟨"span", 1, 1⟩]⟩⟩

/-- A policy that deletes everything (`KeepMostRecentlyPublished 0`). -/
def delAllPolicy : GarbageCollectionPolicy :=
  ⟨.keep_most_recently_published ⟨0⟩⟩

/-- Store for the C6 counterexample: key "k1" holds the heterogeneous pair,
key "k2" holds one deletable artifact. -/
def c6Store : MLMDStore :=
  { live_output_artifacts := fun _ _ =>
      [("k1", [[hetIntArt, hetStrArt]]), ("k2", [[mkArt 3 30]])],
    events := [], executions := [] }

/-- Node with both keys configured. -/
def c6Node : Node :=
  { node_info := ⟨"n"⟩,
    outputs := [("k1", ⟨true, spanPolicy⟩), ("k2", ⟨true, delAllPolicy⟩)] }

/-- The same node with the heterogeneous key's policy absent. -/
def c6NodeOnlyK2 : Node :=
  { node_info := ⟨"n"⟩,
    outputs := [("k1", ⟨false, spanPolicy⟩), ("k2", ⟨true, delAllPolicy⟩)] }

/-! ### Pure view of the KeepPropertyValueGroups evaluator -/

/-- Bucket construction without the type check (tail recursion of the
partitioning loop). -/
def bucketsAux (p : String) (m : List (Option PropValue × List Artifact)) :
    List Artifact → List (Option PropValue × List Artifact)
  | [] => m
  | a :: rest => bucketsAux p (insertGrouped m (_get_property_value a p) a) rest

/-- The partition of a group by property value, keys in first-occurrence
order. -/
def bucketsOf (p : String) (group : List Artifact) :
    List (Option PropValue × List Artifact) :=
  bucketsAux p [] group

/-- The sorted property values selected by a grouping (largest for
UNSPECIFIED/LARGEST, smallest otherwise). -/
def keptValues (g : Grouping) (sorted_property_values : List PropValue) : List PropValue :=
  if g.keep_order = KEEP_ORDER_UNSPECIFIED ∨ g.keep_order = KEEP_ORDER_LARGEST then
    sorted_property_values.drop (sorted_property_values.length - g.keep_num.toNat)
  else
    sorted_property_values.take g.keep_num.toNat

/-- Pure bucket selection (defined for well-formed keep orders). -/
def selPureM (g : Grouping) (m : List (Option PropValue × List Artifact)) :
    List (List Artifact) :=
  if g.keep_num ≤ 0 then
    m.map (fun q => q.2)
  else
    let sorted_property_values := sortPV (m.filterMap (fun q => q.1))
    let property_values_to_keep := keptValues g sorted_property_values
    let selected := property_values_to_keep.map (fun v => lookupBucket m (some v))
    if (m.any (fun q => q.1.isNone)) = true ∧
        (property_values_to_keep.length : Int) < g.keep_num then
      selected ++ [lookupBucket m none]
    else
      selected

/-- Pure selection applied to one group. -/
def selPure (g : Grouping) (group : List Artifact) : List (List Artifact) :=
  selPureM g (bucketsOf g.property_name group)

/-- The survivors of one group under a list of groupings (depth first). -/
def surv : List Grouping → List Artifact → List Artifact
  | [], group => group
  | g :: gs, group => ((selPure g group).map (surv gs)).flatten

/-- The worklist iteration of the evaluator, check-free. -/
def bfsPure : List Grouping → List (List Artifact) → List (List Artifact)
  | [], artifact_groups => artifact_groups
  | g :: gs, artifact_groups =>
    bfsPure gs ((artifact_groups.map (selPure g)).flatten)

/-- A grouping's keep order is one of the three declared enum values. -/
def wfOrder (g : Grouping) : Prop :=
  g.keep_order = KEEP_ORDER_UNSPECIFIED ∨ g.keep_order = KEEP_ORDER_LARGEST ∨
    g.keep_order = KEEP_ORDER_SMALLEST

/-- The runtime types of the non-null values of property `p` in a list. -/
def tagsOf (p : String) (l : List Artifact) : List PropTag :=
  l.filterMap (fun a => (_get_property_value a p).map PropValue.tag)

/-- All non-null values of property `p` share one runtime type. -/
def homogeneousOn (p : String) (l : List Artifact) : Prop :=
  ∀ t1 ∈ tagsOf p l, ∀ t2 ∈ tagsOf p l, t1 = t2

/-- The keys of a bucket map. -/
def keysOf (m : List (Option PropValue × List Artifact)) : List (Option PropValue) :=
  m.map (fun q => q.1)

/-- The non-null property values of `p` in a list of artifacts. -/
def nonNullValues (p : String) (artifacts : List Artifact) : List PropValue :=
  artifacts.filterMap (fun a => _get_property_value a p)

/-- The distinct non-null property values of `p`. -/
def distinctValues (p : String) (artifacts : List Artifact) : List PropValue :=
  (nonNullValues p artifacts).dedup

/-- The `k` largest distinct non-null values of `p` (all of them if fewer
than `k` exist). -/
def kLargestValues (p : String) (artifacts : List Artifact) (k : Nat) : List PropValue :=
  let vs := sortPV (distinctValues p artifacts)
  vs.drop (vs.length - k)

/-- The artifacts of `A` kept by a pass that deletes `D`. -/
def keptAfter (A D : List Artifact) : List Artifact :=
  A.filter (fun a => decide (a ∉ D))

/-- Well-formedness of a policy over a candidate list: property-group
policies have declared keep orders and homogeneous value types (the spec's
data-model invariants). -/
def policyWellFormed (A : List Artifact) (policy : GarbageCollectionPolicy) : Prop :=
  match policy.variant with
  | .keep_property_value_groups kpvg =>
    ∀ g ∈ kpvg.groupings, wfOrder g ∧ homogeneousOn g.property_name A
  | _ => True

/-- Artifact with an int-valued "span". -/
def spanArt (id : Nat) (n : Int) : Artifact :=
  { id := id, uri := "", create_time_since_epoch := 0,
    properties := [("span", .intV n)], custom_properties := [], state := .LIVE }

/-- The span example of the spec: spans 1, 1, 2, 3. -/
def spanA : List Artifact := [spanArt 1 1, spanArt 2 1, spanArt 3 2, spanArt 4 3]

/-- The keys of the buckets selected by `selPureM` on a group, in selection
order. -/
def selKeys (g : Grouping) (G : List Artifact) : List (Option PropValue) :=
  let m := bucketsOf g.property_name G
  if g.keep_num ≤ 0 then
    keysOf m
  else
    let sorted_property_values := sortPV (m.filterMap (fun q => q.1))
    let property_values_to_keep := keptValues g sorted_property_values
    if (m.any (fun q => q.1.isNone)) = true ∧
        (property_values_to_keep.length : Int) < g.keep_num then
      property_values_to_keep.map some ++ [none]
    else
      property_values_to_keep.map some

/-- The single-grouping span policy of the spec's example. -/
def spanPolicyC9 : GarbageCollectionPolicy :=
  ⟨.keep_property_value_groups ⟨[⟨"span", 1, KEEP_ORDER_LARGEST⟩]⟩⟩

/-! ## Theorems -/

theorem insertSorted_perm (le : α → α → Bool) (x : α) (l : List α) :
    List.Perm (insertSorted le x l) (x :: l) := by
  induction l with
  | nil => simp [insertSorted]
  | cons y ys ih =>
    simp only [insertSorted]
    by_cases h : le x y = true
    · simp [h]
    · simp only [h, if_false]
      exact (ih.cons y).trans (List.Perm.swap x y ys)

theorem isort_perm (le : α → α → Bool) (l : List α) : List.Perm (isort le l) l := by
  induction l with
  | nil => simp [isort]
  | cons x xs ih => exact (insertSorted_perm le x (isort le xs)).trans (ih.cons x)

theorem mem_insertSorted (le : α → α → Bool) (x b : α) (l : List α) :
    b ∈ insertSorted le x l ↔ b = x ∨ b ∈ l := by
  have h := (insertSorted_perm le x l).mem_iff (a := b)
  simpa using h

theorem insertSorted_pairwise (le : α → α → Bool)
    (htot : ∀ a b, le a b = true ∨ le b a = true)
    (htrans : ∀ a b c, le a b = true → le b c = true → le a c = true)
    (x : α) (l : List α) (h : l.Pairwise (fun a b => le a b = true)) :
    (insertSorted le x l).Pairwise (fun a b => le a b = true) := by
  induction l with
  | nil => simp [insertSorted]
  | cons y ys ih =>
    rcases h with _ | ⟨hy, hys⟩
    by_cases hxy : le x y = true
    · simp only [insertSorted, hxy, if_true]
      refine List.Pairwise.cons ?_ (List.Pairwise.cons hy hys)
      intro b hb
      rcases List.mem_cons.mp hb with rfl | hb
      · exact hxy
      · exact htrans x y b hxy (hy b hb)
    · simp only [insertSorted, hxy, if_false]
      refine List.Pairwise.cons ?_ (ih hys)
      intro b hb
      rcases (mem_insertSorted le x b ys).mp hb with rfl | hb
      · rcases htot b y with h' | h'
        · exact absurd h' hxy
        · exact h'
      · exact hy b hb

theorem isort_pairwise (le : α → α → Bool)
    (htot : ∀ a b, le a b = true ∨ le b a = true)
    (htrans : ∀ a b c, le a b = true → le b c = true → le a c = true)
    (l : List α) : (isort le l).Pairwise (fun a b => le a b = true) := by
  induction l with
  | nil => simp [isort]
  | cons x xs ih => exact insertSorted_pairwise le htot htrans x (isort le xs) ih

/-- Two sorted permutations of each other are equal (antisymmetric order). -/
theorem sorted_eq_of_perm (le : α → α → Bool)
    (hanti : ∀ a b, le a b = true → le b a = true → a = b) :
    ∀ l₁ l₂ : List α, List.Perm l₁ l₂ → l₁.Pairwise (fun a b => le a b = true) →
      l₂.Pairwise (fun a b => le a b = true) → l₁ = l₂
  | [], l₂, hp, _, _ => (hp.symm.eq_nil).symm
  | x :: t₁, [], hp, _, _ => by simpa using hp.eq_nil
  | x :: t₁, y :: t₂, hp, h₁, h₂ => by
    rcases h₁ with _ | ⟨hx, ht₁⟩
    rcases h₂ with _ | ⟨hy, ht₂⟩
    have hxy : x = y := by
      have hxmem : x ∈ y :: t₂ := hp.subset (List.mem_cons_self x t₁)
      rcases List.mem_cons.mp hxmem with h | h
      · exact h
      · have hymem : y ∈ x :: t₁ := hp.symm.subset (List.mem_cons_self y t₂)
        rcases List.mem_cons.mp hymem with h' | h'
        · exact h'.symm
        · exact hanti x y (hx y h') (hy x h)
    subst hxy
    have hp' : List.Perm t₁ t₂ := hp.cons_inv
    have := sorted_eq_of_perm le hanti t₁ t₂ hp' ht₁ ht₂
    rw [this]

theorem intLe_total : ∀ a b : Int, intLe a b = true ∨ intLe b a = true := by
  intro a b
  simp only [intLe, decide_eq_true_eq]
  omega

theorem intLe_trans : ∀ a b c : Int, intLe a b = true → intLe b c = true → intLe a c = true := by
  intro a b c
  simp only [intLe, decide_eq_true_eq]
  omega

theorem intLe_antisymm : ∀ a b : Int, intLe a b = true → intLe b a = true → a = b := by
  intro a b
  simp only [intLe, decide_eq_true_eq]
  omega

theorem sortInt_perm (l : List Int) : List.Perm (sortInt l) l := isort_perm intLe l

theorem sortInt_pairwise (l : List Int) :
    (sortInt l).Pairwise (fun a b => intLe a b = true) :=
  isort_pairwise intLe intLe_total intLe_trans l

theorem sortInt_length (l : List Int) : (sortInt l).length = l.length :=
  (sortInt_perm l).length_eq

/-! ### Claims C3 and C4: KeepMostRecentlyPublished -/

/-- Claim C3 (counterexample): with `num_artifacts = 0` and one artifact the
policy returns the whole list as the delete set, not the empty set claimed. -/
theorem kmrp_nonpositive_counterexample :
    ¬ (_artifacts_not_most_recently_published [mkArt 1 10] ⟨0⟩ = []) := by
  decide

/-- Claim C3 (amended): for `KeepMostRecentlyPublished`, if `0 < n` and
`|A| ≤ n` the delete set is empty; if `n ≤ 0` the delete set is all of `A`. -/
theorem kmrp_small_or_nonpositive (A : List Artifact) (kmrp : KeepMostRecentlyPublished) :
    (kmrp.num_artifacts ≤ 0 → _artifacts_not_most_recently_published A kmrp = A) ∧
    (0 < kmrp.num_artifacts → (A.length : Int) ≤ kmrp.num_artifacts →
      _artifacts_not_most_recently_published A kmrp = []) := by
  constructor
  · intro h
    simp [_artifacts_not_most_recently_published, h]
  · intro h1 h2
    have hne1 : ¬ kmrp.num_artifacts ≤ 0 := not_le.mpr h1
    simp [_artifacts_not_most_recently_published, hne1, h2]

/-- Witness for the amended claim C3 at concrete inputs. -/
theorem kmrp_small_or_nonpositive_witness :
    (_artifacts_not_most_recently_published [mkArt 1 10] ⟨0⟩ = [mkArt 1 10]) ∧
    (_artifacts_not_most_recently_published [mkArt 1 10] ⟨3⟩ = []) :=
  ⟨(kmrp_small_or_nonpositive [mkArt 1 10] ⟨0⟩).1 (by decide),
   (kmrp_small_or_nonpositive [mkArt 1 10] ⟨3⟩).2 (by decide) (by decide)⟩

/-- Claim C4: with `0 < n < |A|`, the delete set is exactly the artifacts
whose creation timestamp is strictly below the `(|A|-n)`-th smallest
timestamp, and artifacts tied at the cutoff are all kept. -/
theorem kmrp_cutoff_characterization (A : List Artifact) (kmrp : KeepMostRecentlyPublished)
    (h1 : 0 < kmrp.num_artifacts) (h2 : kmrp.num_artifacts < (A.length : Int)) :
    _artifacts_not_most_recently_published A kmrp =
      A.filter (fun a => decide (a.create_time_since_epoch <
        nthSmallestTimestamp A (A.length - kmrp.num_artifacts.toNat))) ∧
    ∀ a ∈ A, a.create_time_since_epoch =
        nthSmallestTimestamp A (A.length - kmrp.num_artifacts.toNat) →
      a ∉ _artifacts_not_most_recently_published A kmrp := by
  have hne1 : ¬ kmrp.num_artifacts ≤ 0 := not_le.mpr h1
  have hne2 : ¬ ((A.length : Int) ≤ kmrp.num_artifacts) := not_le.mpr h2
  have hlen : (sortInt (A.map (fun a => a.create_time_since_epoch))).length = A.length := by
    rw [sortInt_length, List.length_map]
  constructor
  · simp only [_artifacts_not_most_recently_published, if_neg hne1, if_neg hne2,
      nthSmallestTimestamp, hlen]
  · intro a _ heq hmem
    simp only [_artifacts_not_most_recently_published, if_neg hne1, if_neg hne2,
      hlen] at hmem
    rw [List.mem_filter] at hmem
    simp only [nthSmallestTimestamp] at heq
    rw [heq] at hmem
    simp at hmem

/-- Witness for claim C4: timestamps `[10, 20, 20, 30]` with `n = 2` delete
exactly the artifact at timestamp 10; the two artifacts tied at the cutoff
20 and the one at 30 survive. -/
theorem kmrp_cutoff_characterization_witness :
    ((_artifacts_not_most_recently_published
        [mkArt 1 10, mkArt 2 20, mkArt 3 20, mkArt 4 30] ⟨2⟩ =
      [mkArt 1 10, mkArt 2 20, mkArt 3 20, mkArt 4 30].filter
        (fun a => decide (a.create_time_since_epoch <
          nthSmallestTimestamp [mkArt 1 10, mkArt 2 20, mkArt 3 20, mkArt 4 30] 2))) ∧
     ∀ a ∈ [mkArt 1 10, mkArt 2 20, mkArt 3 20, mkArt 4 30],
       a.create_time_since_epoch =
         nthSmallestTimestamp [mkArt 1 10, mkArt 2 20, mkArt 3 20, mkArt 4 30] 2 →
       a ∉ _artifacts_not_most_recently_published
         [mkArt 1 10, mkArt 2 20, mkArt 3 20, mkArt 4 30] ⟨2⟩) ∧
    _artifacts_not_most_recently_published
      [mkArt 1 10, mkArt 2 20, mkArt 3 20, mkArt 4 30] ⟨2⟩ = [mkArt 1 10] :=
  ⟨kmrp_cutoff_characterization [mkArt 1 10, mkArt 2 20, mkArt 3 20, mkArt 4 30] ⟨2⟩
      (by decide) (by decide),
   by decide⟩

/-! ### Claim C1: safety of the usage filter -/

theorem filter_subset_self (p : α → Bool) (l : List α) : l.filter p ⊆ l :=
  fun _ hx => (List.mem_filter.mp hx).1

theorem kmrp_result_subset (artifacts : List Artifact) (kmrp : KeepMostRecentlyPublished) :
    _artifacts_not_most_recently_published artifacts kmrp ⊆ artifacts := by
  simp only [_artifacts_not_most_recently_published]
  split
  · exact fun _ h => h
  · split
    · exact fun _ h => absurd h (List.not_mem_nil _)
    · exact filter_subset_self _ _

theorem kpvg_result_subset (artifacts : List Artifact) (kpvg : KeepPropertyValueGroups)
    (D : List Artifact)
    (h : _artifacts_not_kept_by_property_value_groups artifacts kpvg = .ok D) :
    D ⊆ artifacts := by
  unfold _artifacts_not_kept_by_property_value_groups at h
  split at h
  · exact absurd h (by simp)
  · simp only [Except.ok.injEq] at h
    subst h
    exact filter_subset_self _ _

theorem policy_result_subset (artifacts : List Artifact) (policy : GarbageCollectionPolicy)
    (D : List Artifact)
    (h : _artifacts_to_garbage_collect_for_policy artifacts policy = .ok D) :
    D ⊆ artifacts := by
  unfold _artifacts_to_garbage_collect_for_policy at h
  split at h
  · simp only [Except.ok.injEq] at h
    subst h
    exact kmrp_result_subset artifacts _
  · exact kpvg_result_subset artifacts _ D h
  · simp only [Except.ok.injEq] at h
    subst h
    exact fun _ hx => absurd hx (List.not_mem_nil _)

theorem niu_result_subset (store : MLMDStore) (artifacts : List Artifact)
    (events : List Event) (D : List Artifact)
    (h : _artifacts_not_in_use store artifacts events = .ok D) : D ⊆ artifacts := by
  simp only [_artifacts_not_in_use] at h
  split at h
  · simp only [Except.ok.injEq] at h
    subst h
    exact fun _ hx => hx
  · split at h
    · exact absurd h (by simp)
    · simp only [Except.ok.injEq] at h
      subst h
      exact filter_subset_self _ _

theorem computeInUse_mem (execs : List Execution) (evts : List Event) (ids : List Nat)
    (hok : computeInUseIds execs evts = .ok ids) :
    ∀ e ∈ evts, ∀ x, execution_id_to_execution execs e.execution_id = some x →
      is_execution_active x = true → e.artifact_id ∈ ids := by
  induction evts generalizing ids with
  | nil => intro e he; exact absurd he (List.not_mem_nil e)
  | cons e' rest ih =>
    intro e he x hlk hact
    unfold computeInUseIds at hok
    split at hok
    · exact absurd hok (by simp)
    · rename_i x' hx'
      split at hok
      · exact absurd hok (by simp)
      · rename_i ids' hids'
        simp only [Except.ok.injEq] at hok
        subst hok
        rcases List.mem_cons.mp he with rfl | hrest
        · rw [hlk] at hx'
          injection hx' with hx'
          subst hx'
          rw [hact]
          exact List.mem_cons_self _ _
        · have hmem := ih ids' hids' e hrest x hlk hact
          split
          · exact List.mem_cons_of_mem _ hmem
          · exact hmem

theorem niu_safety (store : MLMDStore) (artifacts : List Artifact) (events : List Event)
    (D : List Artifact) (hok : _artifacts_not_in_use store artifacts events = .ok D)
    (hnodup : (store.executions.map (fun x => x.id)).Nodup) :
    ∀ a ∈ D, ∀ e ∈ events, e.artifact_id = a.id → is_valid_input_event e = true →
      ∀ x ∈ store.executions, x.id = e.execution_id → is_execution_active x = false := by
  intro a haD e he heid hvalid x hx hxid
  have hsub := niu_result_subset store artifacts events D hok
  have ha : a ∈ artifacts := hsub haD
  have hein : e ∈ events.filter
      (fun e => decide (e.artifact_id ∈ artifacts.map (fun a => a.id)) &&
        is_valid_input_event e) := by
    rw [List.mem_filter]
    refine ⟨he, ?_⟩
    rw [Bool.and_eq_true, decide_eq_true_eq]
    exact ⟨List.mem_map.mpr ⟨a, ha, heid.symm⟩, hvalid⟩
  by_contra hactne
  have hact : is_execution_active x = true := by
    cases h : is_execution_active x
    · exact absurd h hactne
    · rfl
  simp only [_artifacts_not_in_use] at hok
  split at hok
  · rename_i hempty
    rw [List.isEmpty_iff, List.map_eq_nil_iff] at hempty
    rw [hempty] at hein
    exact absurd hein (List.not_mem_nil e)
  · rename_i hnotempty
    split at hok
    · exact absurd hok (by simp)
    · rename_i in_use hin_use
      simp only [Except.ok.injEq] at hok
      subst hok
      -- the execution for e's id is found and equals x
      have hxin : x ∈ get_executions_by_id store
          ((events.filter (fun e => decide (e.artifact_id ∈ artifacts.map (fun a => a.id)) &&
            is_valid_input_event e)).map (fun e => e.execution_id)) := by
        rw [get_executions_by_id, List.mem_filter]
        refine ⟨hx, ?_⟩
        rw [decide_eq_true_eq, hxid]
        exact List.mem_map.mpr ⟨e, hein, rfl⟩
      set execs := get_executions_by_id store
          ((events.filter (fun e => decide (e.artifact_id ∈ artifacts.map (fun a => a.id)) &&
            is_valid_input_event e)).map (fun e => e.execution_id)) with hexecs
      have hfound : (execution_id_to_execution execs e.execution_id).isSome := by
        rw [execution_id_to_execution, List.find?_isSome]
        exact ⟨x, List.mem_reverse.mpr hxin, by rw [decide_eq_true_eq, hxid]⟩
      rcases Option.isSome_iff_exists.mp hfound with ⟨y, hy⟩
      have hyid : y.id = e.execution_id := by
        have := List.find?_some hy
        rwa [decide_eq_true_eq] at this
      have hymem : y ∈ store.executions := by
        have : y ∈ execs := List.mem_reverse.mp (List.mem_of_find?_eq_some hy)
        rw [hexecs, get_executions_by_id] at this
        exact (List.mem_filter.mp this).1
      have hyx : y = x :=
        List.inj_on_of_nodup_map hnodup hymem hx (by rw [hyid, hxid])
      subst hyx
      have hmem := computeInUse_mem execs _ in_use hin_use e hein y hy hact
      rw [heid] at hmem
      have haD' := List.mem_filter.mp haD
      rw [decide_eq_true_eq] at haD'
      exact haD'.2 hmem

theorem assocLookup_mem (m : List (String × α)) (k : String) (v : α)
    (h : assocLookup m k = some v) : v ∈ m.map (fun q => q.2) := by
  unfold assocLookup at h
  cases hf : m.find? (fun q => decide (q.1 = k)) with
  | none => rw [hf] at h; simp at h
  | some q =>
    rw [hf] at h
    simp at h
    subst h
    exact List.mem_map.mpr ⟨q, List.mem_of_find?_eq_some hf, rfl⟩

theorem gcForKeys_mem (store : MLMDStore)
    (ext : GarbageCollectionPolicy → List Artifact → List Artifact)
    (events : List Event) (abk : List (String × List Artifact)) :
    ∀ (pols : List (String × GarbageCollectionPolicy)) (R : List Artifact),
      gcForKeys store ext events abk pols = .ok R →
      ∀ a ∈ R, ∃ policy arts D, (∃ key, assocLookup abk key = some arts) ∧
        _artifacts_to_garbage_collect store ext arts events policy = .ok D ∧ a ∈ D := by
  intro pols
  induction pols with
  | nil =>
    intro R hR a ha
    simp only [gcForKeys, Except.ok.injEq] at hR
    subst hR
    exact absurd ha (List.not_mem_nil a)
  | cons kp rest ih =>
    intro R hR a ha
    obtain ⟨output_key, policy⟩ := kp
    simp only [gcForKeys] at hR
    split at hR
    · exact ih R hR a ha
    · rename_i arts harts
      split at hR
      · exact absurd hR (by simp)
      · rename_i r hr
        split at hR
        · exact absurd hR (by simp)
        · rename_i rs hrs
          simp only [Except.ok.injEq] at hR
          subst hR
          rcases List.mem_append.mp ha with h | h
          · exact ⟨policy, arts, r, ⟨output_key, harts⟩, hr, h⟩
          · exact ih rs hrs a h

/-- Claim C1: no artifact consumed as input by an execution in an active
state appears in the final delete set of the per-node candidate
computation, for every store, node, policy configuration, and (monotonic)
pipeline-group extension. -/
theorem node_delete_set_excludes_active_inputs (store : MLMDStore)
    (ext : GarbageCollectionPolicy → List Artifact → List Artifact)
    (node_uid : NodeUid) (node : Node)
    (hext : ∀ p l, ext p l ⊆ l)
    (hnodup : (store.executions.map (fun x => x.id)).Nodup)
    (R : List Artifact)
    (hR : get_artifacts_to_garbage_collect_for_node store ext node_uid node = .ok R) :
    ∀ a ∈ R, ∀ e ∈ store.events, e.artifact_id = a.id → is_valid_input_event e = true →
      ∀ x ∈ store.executions, x.id = e.execution_id → is_execution_active x = false := by
  intro a ha e he heid hvalid x hx hxid
  simp only [get_artifacts_to_garbage_collect_for_node] at hR
  split at hR
  · simp only [Except.ok.injEq] at hR
    subst hR
    exact absurd ha (List.not_mem_nil a)
  · split at hR
    · simp only [Except.ok.injEq] at hR
      subst hR
      exact absurd ha (List.not_mem_nil a)
    · obtain ⟨policy, arts, D, ⟨key, hkey⟩, hgc, haD⟩ :=
        gcForKeys_mem store ext _ _ _ R hR a ha
      simp only [_artifacts_to_garbage_collect] at hgc
      split at hgc
      · exact absurd hgc (by simp)
      · rename_i result1 hres1
        have hsub1 : D ⊆ ext policy result1 := niu_result_subset _ _ _ _ hgc
        have ha_arts : a ∈ arts :=
          policy_result_subset arts policy result1 hres1
            (hext policy result1 (hsub1 haD))
        have haflat : a ∈ ((_get_live_output_artifacts_for_node store node_uid).map
            (fun q => q.2)).flatten := by
          rw [List.mem_flatten]
          exact ⟨arts, assocLookup_mem _ _ _ hkey, ha_arts⟩
        refine niu_safety store (ext policy result1) _ D hgc hnodup a haD e ?_ heid hvalid
          x hx hxid
        rw [List.mem_filter]
        refine ⟨he, ?_⟩
        rw [decide_eq_true_eq, List.mem_dedup]
        exact List.mem_map.mpr ⟨a, haflat, heid.symm⟩

/-- Witness for claim C1 at a concrete store and node: artifact 1 is in
the delete set while its only input event resolves to a terminal
execution. -/
theorem node_delete_set_excludes_active_inputs_witness :
    (get_artifacts_to_garbage_collect_for_node c1Store (fun _ l => l) ⟨"p", "n"⟩ c1Node =
        .ok [mkArt 1 10] ∧
      mkArt 1 10 ∈ [mkArt 1 10] ∧ c1Event ∈ c1Store.events ∧
      c1Event.artifact_id = (mkArt 1 10).id ∧ is_valid_input_event c1Event = true ∧
      c1Exec ∈ c1Store.executions ∧ c1Exec.id = c1Event.execution_id) ∧
    is_execution_active c1Exec = false :=
  ⟨⟨by rfl, by decide, by decide, by decide, by decide, by decide, by decide⟩,
    node_delete_set_excludes_active_inputs c1Store (fun _ l => l) ⟨"p", "n"⟩ c1Node
      (fun _ _ _ h => h) (by decide) [mkArt 1 10] (by rfl) (mkArt 1 10) (by decide)
      c1Event (by decide) (by decide) (by decide) c1Exec (by decide) (by decide)⟩

/-- Claim C2: the node-level entry point raises exactly on the node-id
wiring mismatch; every internal failure of the candidate computation is
caught and suppressed. -/
theorem run_gc_propagates_only_wiring_error (store : MLMDStore) (fs : FileSystem)
    (ext : GarbageCollectionPolicy → List Artifact → List Artifact)
    (node_uid : NodeUid) (node : Node) :
    (node.node_info.id ≠ node_uid.node_id →
      run_garbage_collection_for_node store fs ext node_uid node =
        .error "Node uids do not match for garbage collection") ∧
    (node.node_info.id = node_uid.node_id →
      ∃ r, run_garbage_collection_for_node store fs ext node_uid node = .ok r) := by
  constructor
  · intro hne
    simp [run_garbage_collection_for_node, hne]
  · intro heq
    simp only [run_garbage_collection_for_node, heq, ne_eq, not_true_eq_false, if_false]
    cases hget : get_artifacts_to_garbage_collect_for_node store ext node_uid node with
    | error msg => exact ⟨none, rfl⟩
    | ok artifacts => exact ⟨some (garbage_collect_artifacts fs artifacts), rfl⟩

/-- Witness for claim C2: a mismatched uid raises, a matching uid returns
normally on the same node. -/
theorem run_gc_propagates_only_wiring_error_witness :
    (run_garbage_collection_for_node c1Store fsTriv (fun _ l => l) ⟨"p", "other"⟩ c1Node =
      .error "Node uids do not match for garbage collection") ∧
    (∃ r, run_garbage_collection_for_node c1Store fsTriv (fun _ l => l) ⟨"p", "n"⟩ c1Node =
      .ok r) :=
  ⟨(run_gc_propagates_only_wiring_error c1Store fsTriv (fun _ l => l) ⟨"p", "other"⟩
      c1Node).1 (by decide),
   (run_gc_propagates_only_wiring_error c1Store fsTriv (fun _ l => l) ⟨"p", "n"⟩
      c1Node).2 rfl⟩

/-! ### Claims C7, C8, C10: the purge executor -/

theorem delete_uri_ops_uri (fs : FileSystem) (a : Artifact) :
    ∀ op ∈ (_delete_artifact_uri fs a).2, op.uri = a.uri := by
  intro op hop
  unfold _delete_artifact_uri at hop
  split at hop <;> split at hop <;> (try split at hop) <;>
    simp only [List.mem_cons, List.not_mem_nil, or_false] at hop <;>
    (rcases hop with rfl | rfl | rfl <;> rfl)

/-- Claim C7: an external artifact is state-flipped to DELETED with no
storage operation; no storage operation of the whole purge pass touches a
uri all of whose artifacts are external. -/
theorem external_artifacts_metadata_flip_only (fs : FileSystem)
    (artifacts : List Artifact) (u : String)
    (hall : ∀ a ∈ artifacts, a.uri = u → _is_artifact_external a = true) :
    (∀ op ∈ (garbage_collect_artifacts fs artifacts).fs_ops, op.uri ≠ u) ∧
    (∀ a ∈ artifacts, _is_artifact_external a = true →
      gcProcessArtifact fs a = ({a with state := .DELETED}, [])) := by
  constructor
  · intro op hop
    unfold garbage_collect_artifacts at hop
    split at hop
    · exact absurd hop (List.not_mem_nil op)
    · rw [List.mem_flatten] at hop
      obtain ⟨ops, hops, hopin⟩ := hop
      rw [List.mem_map] at hops
      obtain ⟨a, hain, hopsa⟩ := hops
      subst hopsa
      by_cases hex : _is_artifact_external a = true
      · rw [gcProcessArtifact, if_pos hex] at hopin
        exact absurd hopin (List.not_mem_nil op)
      · have hext : _is_artifact_external a = false := by
          cases h : _is_artifact_external a
          · rfl
          · exact absurd h hex
        have hops2 : (gcProcessArtifact fs a).2 = (_delete_artifact_uri fs a).2 := by
          rw [gcProcessArtifact, if_neg hex]
        rw [hops2] at hopin
        have huri := delete_uri_ops_uri fs a op hopin
        intro hu
        rw [hu] at huri
        exact hex (hall a hain huri.symm)
  · intro a _ hex
    rw [gcProcessArtifact, if_pos hex]

/-- Witness for claim C7 on a concrete external artifact. -/
theorem external_artifacts_metadata_flip_only_witness :
    (∀ op ∈ (garbage_collect_artifacts fsTriv [extArt]).fs_ops, op.uri ≠ "u") ∧
    (∀ a ∈ [extArt], _is_artifact_external a = true →
      gcProcessArtifact fsTriv a = ({a with state := .DELETED}, [])) :=
  external_artifacts_metadata_flip_only fsTriv [extArt] "u" (by decide)

/-- Claim C8: an internal artifact is marked DELETED when removal succeeds,
or when removal fails but the location no longer exists at failure time;
it is left entirely unchanged (hence still LIVE) when removal fails with
the location still present. -/
theorem internal_purge_outcome (fs : FileSystem) (a : Artifact)
    (hint : _is_artifact_external a = false) :
    ((if fs.isdir a.uri then fs.rmtree_raises a.uri else fs.remove_raises a.uri) = false →
      (gcProcessArtifact fs a).1 = {a with state := .DELETED}) ∧
    ((if fs.isdir a.uri then fs.rmtree_raises a.uri else fs.remove_raises a.uri) = true →
      fs.exists_after a.uri = false →
      (gcProcessArtifact fs a).1 = {a with state := .DELETED}) ∧
    ((if fs.isdir a.uri then fs.rmtree_raises a.uri else fs.remove_raises a.uri) = true →
      fs.exists_after a.uri = true →
      (gcProcessArtifact fs a).1 = a) := by
  have hne : ¬ _is_artifact_external a = true := by rw [hint]; exact Bool.false_ne_true
  refine ⟨?_, ?_, ?_⟩ <;> intro h1 <;>
    [skip; intro h2; intro h2] <;>
    by_cases hd : fs.isdir a.uri = true <;>
    simp_all [gcProcessArtifact, _delete_artifact_uri]

/-- Witness for claim C8: success deletes; failure with the location still
present leaves the record unchanged. -/
theorem internal_purge_outcome_witness :
    ((gcProcessArtifact fsTriv intArt).1 = {intArt with state := .DELETED}) ∧
    ((gcProcessArtifact fsFail intArt).1 = intArt) :=
  ⟨(internal_purge_outcome fsTriv intArt (by decide)).1 (by decide),
   (internal_purge_outcome fsFail intArt (by decide)).2.2 (by decide) (by decide)⟩

/-- Claim C10: the purge step writes back, in one batch write, records that
differ from the inputs at most in `state`; an internal artifact whose
removal failed with the location still present is written back entirely
unchanged. -/
theorem purge_mutates_only_state (fs : FileSystem) (artifacts : List Artifact)
    (hne : artifacts ≠ []) :
    (garbage_collect_artifacts fs artifacts).store_write = true ∧
    List.Forall₂ (fun a b =>
      b.id = a.id ∧ b.uri = a.uri ∧
      b.create_time_since_epoch = a.create_time_since_epoch ∧
      b.properties = a.properties ∧ b.custom_properties = a.custom_properties ∧
      (b.state = a.state ∨ b.state = ArtifactState.DELETED) ∧
      ((_is_artifact_external a = false ∧ (_delete_artifact_uri fs a).1 = false) → b = a))
      artifacts (garbage_collect_artifacts fs artifacts).written := by
  have hemp : artifacts.isEmpty = false := by
    cases artifacts
    · exact absurd rfl hne
    · rfl
  constructor
  · rw [garbage_collect_artifacts, hemp]
    simp
  · rw [garbage_collect_artifacts, hemp]
    simp only [Bool.false_eq_true, if_false]
    rw [List.forall₂_map_right_iff]
    rw [List.forall₂_same]
    intro a _
    by_cases hex : _is_artifact_external a = true
    · simp [gcProcessArtifact, hex]
    · by_cases hdel : (_delete_artifact_uri fs a).1 = true
      · simp [gcProcessArtifact, hex, hdel]
      · simp only [Bool.not_eq_true] at hdel
        simp [gcProcessArtifact, hex, hdel]

/-- Witness for claim C10 on a two-artifact batch: one deleted external
record and one failed internal record in the same write. -/
theorem purge_mutates_only_state_witness :
    (garbage_collect_artifacts fsFail [extArt, intArt]).store_write = true ∧
    List.Forall₂ (fun a b =>
      b.id = a.id ∧ b.uri = a.uri ∧
      b.create_time_since_epoch = a.create_time_since_epoch ∧
      b.properties = a.properties ∧ b.custom_properties = a.custom_properties ∧
      (b.state = a.state ∨ b.state = ArtifactState.DELETED) ∧
      ((_is_artifact_external a = false ∧ (_delete_artifact_uri fsFail a).1 = false) → b = a))
      [extArt, intArt] (garbage_collect_artifacts fsFail [extArt, intArt]).written :=
  purge_mutates_only_state fsFail [extArt, intArt] (by decide)

/-! ### Claim C6: configuration errors -/

theorem niu_nil (store : MLMDStore) (events : List Event) :
    _artifacts_not_in_use store [] events = .ok [] := by
  simp [_artifacts_not_in_use]

/-- Claim C6 (counterexample): a heterogeneous-type configuration error on
key "k1" makes the whole per-node candidate computation fail, so key "k2"
contributes nothing this cycle — although evaluated on its own it would
contribute its artifact.  This contradicts "the other output keys of the
node are evaluated as usual". -/
theorem config_error_aborts_other_keys_counterexample :
    get_artifacts_to_garbage_collect_for_node c6Store (fun _ l => l) ⟨"p", "n"⟩ c6Node =
      .error "Properties from the same group should have a homogenous type except NoneType." ∧
    get_artifacts_to_garbage_collect_for_node c6Store (fun _ l => l) ⟨"p", "n"⟩ c6NodeOnlyK2 =
      .ok [mkArt 3 30] :=
  ⟨rfl, rfl⟩

/-- Claim C6 (amended): an unset/unknown policy variant contributes no
candidates for its key and leaves the other keys' evaluation unchanged,
while a policy-evaluation error (heterogeneous types, unknown keep_order)
on any configured key makes the whole per-node candidate computation
error out for that cycle (it is then contained at the node boundary). -/
theorem config_error_containment (store : MLMDStore)
    (ext : GarbageCollectionPolicy → List Artifact → List Artifact)
    (events : List Event) (abk : List (String × List Artifact))
    (hext : ∀ p l, ext p l ⊆ l) :
    (∀ key (policy : GarbageCollectionPolicy) rest, policy.variant = .unset →
      gcForKeys store ext events abk ((key, policy) :: rest) =
        gcForKeys store ext events abk rest) ∧
    (∀ pols : List (String × GarbageCollectionPolicy),
      (∃ key policy arts msg, (key, policy) ∈ pols ∧ assocLookup abk key = some arts ∧
        _artifacts_to_garbage_collect store ext arts events policy = .error msg) →
      ∃ msg2, gcForKeys store ext events abk pols = .error msg2) := by
  constructor
  · intro key policy rest hunset
    simp only [gcForKeys]
    cases hlk : assocLookup abk key with
    | none => rfl
    | some arts =>
      have hfp : _artifacts_to_garbage_collect_for_policy arts policy = .ok [] := by
        simp [_artifacts_to_garbage_collect_for_policy, hunset]
      have hextnil : ext policy [] = [] := List.subset_nil.mp (hext policy [])
      have hpol : _artifacts_to_garbage_collect store ext arts events policy = .ok [] := by
        simp only [_artifacts_to_garbage_collect, hfp, hextnil]
        exact niu_nil store events
      simp only [hpol]
      cases hrest : gcForKeys store ext events abk rest with
      | error msg => simp [hrest]
      | ok rs => simp [hrest]
  · intro pols
    induction pols with
    | nil =>
      intro hex2
      obtain ⟨key, policy, arts, msg, hmem, -, -⟩ := hex2
      exact absurd hmem (List.not_mem_nil _)
    | cons kp rest ih =>
      intro hex2
      obtain ⟨key, policy, arts, msg, hmem, hlk, herr⟩ := hex2
      obtain ⟨k0, p0⟩ := kp
      simp only [gcForKeys]
      rcases List.mem_cons.mp hmem with heq | hmemrest
      · rw [Prod.mk.injEq] at heq
        obtain ⟨h1, h2⟩ := heq
        subst h1
        subst h2
        refine ⟨msg, ?_⟩
        simp only [hlk, herr]
      · obtain ⟨msg2, hrest⟩ := ih ⟨key, policy, arts, msg, hmemrest, hlk, herr⟩
        cases hlk0 : assocLookup abk k0 with
        | none =>
          refine ⟨msg2, ?_⟩
          simpa using hrest
        | some arts0 =>
          cases hgc0 : _artifacts_to_garbage_collect store ext arts0 events p0 with
          | error m0 => exact ⟨m0, by simp [hgc0]⟩
          | ok r0 =>
            refine ⟨msg2, ?_⟩
            simp [hgc0, hrest]

/-- Witness for the amended claim C6: an unset-policy key contributes
nothing and the remaining keys evaluate as without it. -/
theorem config_error_containment_witness :
    gcForKeys c1Store (fun _ l => l) [] [("out", [mkArt 1 10])]
      [("out", ⟨PolicyVariant.unset⟩)] =
    gcForKeys c1Store (fun _ l => l) [] [("out", [mkArt 1 10])] [] :=
  (config_error_containment c1Store (fun _ l => l) [] [("out", [mkArt 1 10])]
    (fun _ _ _ h => h)).1 "out" ⟨PolicyVariant.unset⟩ [] rfl

/-! ### Order lemmas for property values -/

theorem pvLe_total : ∀ a b : PropValue, PropValue.le a b = true ∨ PropValue.le b a = true := by
  intro a b
  cases a <;> cases b <;>
    simp only [PropValue.le, decide_eq_true_eq] <;>
    first | omega | exact le_total _ _ | exact Or.inl trivial | exact Or.inr trivial

theorem pvLe_trans : ∀ a b c : PropValue, PropValue.le a b = true → PropValue.le b c = true →
    PropValue.le a c = true := by
  intro a b c
  cases a <;> cases b <;> cases c <;>
    simp only [PropValue.le, decide_eq_true_eq, Bool.false_eq_true] <;>
    intro h1 h2 <;>
    first | trivial | omega | exact h1.elim | exact h2.elim | exact le_trans h1 h2

theorem pvLe_antisymm : ∀ a b : PropValue, PropValue.le a b = true → PropValue.le b a = true →
    a = b := by
  intro a b
  cases a <;> cases b <;>
    simp only [PropValue.le, decide_eq_true_eq, Bool.false_eq_true, PropValue.intV.injEq,
      PropValue.strV.injEq] <;>
    intro h1 h2 <;>
    first | trivial | omega | exact h1.elim | exact h2.elim | exact le_antisymm h1 h2

theorem sortPV_perm (l : List PropValue) : List.Perm (sortPV l) l := isort_perm _ l

theorem sortPV_pairwise (l : List PropValue) :
    (sortPV l).Pairwise (fun a b => PropValue.le a b = true) :=
  isort_pairwise _ pvLe_total pvLe_trans l

/-- `sortPV` is determined by the member multiset. -/
theorem sortPV_eq_of_perm (l₁ l₂ : List PropValue) (h : List.Perm l₁ l₂) :
    sortPV l₁ = sortPV l₂ :=
  sorted_eq_of_perm PropValue.le pvLe_antisymm _ _
    ((sortPV_perm l₁).trans (h.trans (sortPV_perm l₂).symm))
    (sortPV_pairwise l₁) (sortPV_pairwise l₂)

/-- A sorted list sorts to itself. -/
theorem sortPV_of_sorted (l : List PropValue)
    (h : l.Pairwise (fun a b => PropValue.le a b = true)) : sortPV l = l :=
  sorted_eq_of_perm PropValue.le pvLe_antisymm _ _ (sortPV_perm l) (sortPV_pairwise l) h

/-! ### Bucket-map lemmas -/

theorem lookupBucket_nil (k' : Option PropValue) : lookupBucket [] k' = [] := rfl

theorem lookupBucket_cons (k0 : Option PropValue) (b0 : List Artifact)
    (rest : List (Option PropValue × List Artifact)) (k' : Option PropValue) :
    lookupBucket ((k0, b0) :: rest) k' = if k0 = k' then b0 else lookupBucket rest k' := by
  simp only [lookupBucket, List.find?]
  by_cases h : k0 = k'
  · simp [h]
  · simp [h]

theorem lookupBucket_insertGrouped (m : List (Option PropValue × List Artifact))
    (k k' : Option PropValue) (a : Artifact) :
    lookupBucket (insertGrouped m k a) k' =
      if k' = k then lookupBucket m k' ++ [a] else lookupBucket m k' := by
  induction m with
  | nil =>
    simp only [insertGrouped, lookupBucket_cons, lookupBucket_nil]
    by_cases h : k = k'
    · subst h
      simp
    · have h' : ¬ (k' = k) := fun hh => h hh.symm
      simp [h, h']
  | cons q rest ih =>
    obtain ⟨k0, b0⟩ := q
    by_cases hk : k0 = k
    · subst hk
      simp only [insertGrouped, if_pos rfl, lookupBucket_cons]
      by_cases h : k0 = k'
      · subst h
        simp [lookupBucket_cons]
      · have h' : ¬ (k' = k0) := fun hh => h hh.symm
        simp [lookupBucket_cons, h, h']
    · simp only [insertGrouped, if_neg hk, lookupBucket_cons]
      by_cases h : k0 = k'
      · subst h
        have hne : ¬ (k0 = k) := hk
        simp [hne]
      · simp [h, ih]

theorem keysOf_insertGrouped (m : List (Option PropValue × List Artifact))
    (k : Option PropValue) (a : Artifact) :
    keysOf (insertGrouped m k a) =
      if k ∈ keysOf m then keysOf m else keysOf m ++ [k] := by
  induction m with
  | nil => simp [insertGrouped, keysOf]
  | cons q rest ih =>
    obtain ⟨k0, b0⟩ := q
    by_cases hk : k0 = k
    · subst hk
      simp [insertGrouped, keysOf]
    · have hne : ¬ (k = k0) := fun hh => hk hh.symm
      simp only [insertGrouped, if_neg hk, keysOf, List.map_cons]
      rw [show keysOf (insertGrouped rest k a) =
        List.map (fun q => q.1) (insertGrouped rest k a) from rfl] at ih
      rw [ih]
      simp only [keysOf, List.mem_cons, hne, false_or]
      by_cases h2 : k ∈ rest.map (fun q => q.1)
      · simp [h2]
      · simp [h2]

theorem mem_keysOf_insertGrouped (m : List (Option PropValue × List Artifact))
    (k kv : Option PropValue) (a : Artifact) :
    kv ∈ keysOf (insertGrouped m k a) ↔ kv ∈ keysOf m ∨ kv = k := by
  rw [keysOf_insertGrouped]
  by_cases h : k ∈ keysOf m
  · simp only [h, if_true]
    constructor
    · exact fun hh => Or.inl hh
    · rintro (hh | rfl)
      · exact hh
      · exact h
  · simp [h]

theorem mem_keysOf_bucketsAux (p : String) (G : List Artifact) :
    ∀ (m : List (Option PropValue × List Artifact)) (kv : Option PropValue),
      kv ∈ keysOf (bucketsAux p m G) ↔
        kv ∈ keysOf m ∨ ∃ a ∈ G, _get_property_value a p = kv := by
  induction G with
  | nil => intro m kv; simp [bucketsAux]
  | cons a rest ih =>
    intro m kv
    simp only [bucketsAux]
    rw [ih]
    rw [mem_keysOf_insertGrouped]
    constructor
    · rintro ((h | rfl) | ⟨b, hb, hpb⟩)
      · exact Or.inl h
      · exact Or.inr ⟨a, List.mem_cons_self a rest, rfl⟩
      · exact Or.inr ⟨b, List.mem_cons_of_mem a hb, hpb⟩
    · rintro (h | ⟨b, hb, hpb⟩)
      · exact Or.inl (Or.inl h)
      · rcases List.mem_cons.mp hb with rfl | hb2
        · exact Or.inl (Or.inr hpb.symm)
        · exact Or.inr ⟨b, hb2, hpb⟩

theorem nodup_keysOf_bucketsAux (p : String) (G : List Artifact) :
    ∀ (m : List (Option PropValue × List Artifact)),
      (keysOf m).Nodup → (keysOf (bucketsAux p m G)).Nodup := by
  induction G with
  | nil => intro m h; exact h
  | cons a rest ih =>
    intro m h
    simp only [bucketsAux]
    apply ih
    rw [keysOf_insertGrouped]
    by_cases h2 : _get_property_value a p ∈ keysOf m
    · simp [h2, h]
    · simp only [h2, if_false]
      rw [List.nodup_append]
      exact ⟨h, List.nodup_singleton _, by simpa using h2⟩

theorem lookupBucket_bucketsAux (p : String) (G : List Artifact) :
    ∀ (m : List (Option PropValue × List Artifact)) (kv : Option PropValue),
      lookupBucket (bucketsAux p m G) kv =
        lookupBucket m kv ++ G.filter (fun a => decide (_get_property_value a p = kv)) := by
  induction G with
  | nil => intro m kv; simp [bucketsAux]
  | cons a rest ih =>
    intro m kv
    simp only [bucketsAux]
    rw [ih, lookupBucket_insertGrouped]
    by_cases h : kv = _get_property_value a p
    · subst h
      simp [List.filter_cons, List.append_assoc]
    · have h' : ¬ (_get_property_value a p = kv) := fun hh => h hh.symm
      simp [h, h', List.filter_cons]

theorem lookupBucket_bucketsOf (p : String) (G : List Artifact) (kv : Option PropValue) :
    lookupBucket (bucketsOf p G) kv =
      G.filter (fun a => decide (_get_property_value a p = kv)) := by
  rw [bucketsOf, lookupBucket_bucketsAux]
  rfl

theorem mem_keysOf_bucketsOf (p : String) (G : List Artifact) (kv : Option PropValue) :
    kv ∈ keysOf (bucketsOf p G) ↔ ∃ a ∈ G, _get_property_value a p = kv := by
  rw [bucketsOf, mem_keysOf_bucketsAux]
  simp [keysOf]

theorem nodup_keysOf_bucketsOf (p : String) (G : List Artifact) :
    (keysOf (bucketsOf p G)).Nodup :=
  nodup_keysOf_bucketsAux p G [] (by simp [keysOf])

theorem entry_lookupBucket (m : List (Option PropValue × List Artifact))
    (hnd : (keysOf m).Nodup) (kv : Option PropValue) (B : List Artifact)
    (hmem : (kv, B) ∈ m) : lookupBucket m kv = B := by
  induction m with
  | nil => exact absurd hmem (List.not_mem_nil _)
  | cons q rest ih =>
    obtain ⟨k0, b0⟩ := q
    rw [lookupBucket_cons]
    rcases List.mem_cons.mp hmem with heq | hmem2
    · rw [Prod.mk.injEq] at heq
      obtain ⟨h1, h2⟩ := heq
      subst h1
      subst h2
      simp
    · have hk0 : kv ∈ keysOf rest := by
        simp only [keysOf, List.mem_map]
        exact ⟨(kv, B), hmem2, rfl⟩
      have hne : ¬ (k0 = kv) := by
        intro hh
        subst hh
        simp only [keysOf, List.map_cons, List.nodup_cons] at hnd
        exact hnd.1 hk0
      rw [if_neg hne]
      apply ih _ hmem2
      simp only [keysOf, List.map_cons, List.nodup_cons] at hnd
      exact hnd.2

theorem any_isNone_iff (m : List (Option PropValue × List Artifact)) :
    (m.any (fun q => q.1.isNone)) = true ↔ none ∈ keysOf m := by
  rw [List.any_eq_true]
  constructor
  · rintro ⟨q, hq, hnone⟩
    rw [Option.isNone_iff_eq_none] at hnone
    simp only [keysOf, List.mem_map]
    exact ⟨q, hq, hnone⟩
  · intro h
    simp only [keysOf, List.mem_map] at h
    obtain ⟨q, hq, hnone⟩ := h
    exact ⟨q, hq, by rw [hnone]; rfl⟩

/-! ### Bridging the checked evaluator to the pure view -/

theorem selectBuckets_eq_selPureM (g : Grouping)
    (m : List (Option PropValue × List Artifact)) (hwf : wfOrder g) :
    selectBuckets g m = .ok (selPureM g m) := by
  by_cases hk : g.keep_num ≤ 0
  · simp [selectBuckets, selPureM, hk]
  · have hcond : (g.keep_order = KEEP_ORDER_UNSPECIFIED ∨ g.keep_order = KEEP_ORDER_LARGEST) ∨
        g.keep_order = KEEP_ORDER_SMALLEST := by
      rcases hwf with h | h | h
      exacts [Or.inl (Or.inl h), Or.inl (Or.inr h), Or.inr h]
    rcases hcond with h | h
    · simp only [selectBuckets, selPureM, keptValues, if_neg hk, if_pos h]
      split <;> rfl
    · have hne : ¬ (g.keep_order = KEEP_ORDER_UNSPECIFIED ∨
          g.keep_order = KEEP_ORDER_LARGEST) := by
        rw [h]
        rintro (h1 | h1)
        · exact absurd h1 (by decide)
        · exact absurd h1 (by decide)
      simp only [selectBuckets, selPureM, keptValues, if_neg hk, if_neg hne, if_pos h]
      split <;> rfl

theorem tagsOf_cons_none (p : String) (a : Artifact) (rest : List Artifact)
    (hpv : _get_property_value a p = none) : tagsOf p (a :: rest) = tagsOf p rest := by
  simp [tagsOf, List.filterMap_cons, hpv]

theorem tagsOf_cons_some (p : String) (a : Artifact) (rest : List Artifact)
    (v : PropValue) (hpv : _get_property_value a p = some v) :
    tagsOf p (a :: rest) = v.tag :: tagsOf p rest := by
  simp [tagsOf, List.filterMap_cons, hpv]

theorem tagsOf_subset (p : String) (G A : List Artifact) (h : G ⊆ A) :
    ∀ t ∈ tagsOf p G, t ∈ tagsOf p A := by
  intro t ht
  simp only [tagsOf, List.mem_filterMap] at ht ⊢
  obtain ⟨a, ha, hf⟩ := ht
  exact ⟨a, h ha, hf⟩

theorem buildBuckets_ok (p : String) (T : List PropTag)
    (hT : ∀ t1 ∈ T, ∀ t2 ∈ T, t1 = t2) :
    ∀ (group : List Artifact) (st : Option PropTag)
      (m : List (Option PropValue × List Artifact)),
      (∀ t ∈ tagsOf p group, t ∈ T) →
      (st = none ∨ ∃ t ∈ T, st = some t) →
      ∃ st2, buildBuckets p st m group = .ok (st2, bucketsAux p m group) ∧
        (st2 = none ∨ ∃ t ∈ T, st2 = some t) := by
  intro group
  induction group with
  | nil => intro st m _ hst; exact ⟨st, rfl, hst⟩
  | cons a rest ih =>
    intro st m htags hst
    cases hpv : _get_property_value a p with
    | none =>
      have htags' : ∀ t ∈ tagsOf p rest, t ∈ T := by
        intro t ht
        apply htags
        rw [tagsOf_cons_none p a rest hpv]
        exact ht
      obtain ⟨st2, hbb, hst2⟩ := ih st (insertGrouped m none a) htags' hst
      refine ⟨st2, ?_, hst2⟩
      simp only [buildBuckets, hpv, bucketsAux]
      exact hbb
    | some v =>
      have hvT : v.tag ∈ T := by
        apply htags
        rw [tagsOf_cons_some p a rest v hpv]
        exact List.mem_cons_self _ _
      have htags' : ∀ t ∈ tagsOf p rest, t ∈ T := by
        intro t ht
        apply htags
        rw [tagsOf_cons_some p a rest v hpv]
        exact List.mem_cons_of_mem _ ht
      cases st with
      | none =>
        obtain ⟨st2, hbb, hst2⟩ := ih (some v.tag) (insertGrouped m (some v) a) htags'
          (Or.inr ⟨v.tag, hvT, rfl⟩)
        refine ⟨st2, ?_, hst2⟩
        simp only [buildBuckets, hpv, bucketsAux]
        exact hbb
      | some t =>
        have htT : t ∈ T := by
          rcases hst with h | ⟨t', ht', heq⟩
          · exact absurd h (by simp)
          · injection heq with heq
            rw [heq]
            exact ht'
        have hteq : t = v.tag := hT t htT v.tag hvT
        obtain ⟨st2, hbb, hst2⟩ := ih (some v.tag) (insertGrouped m (some v) a) htags'
          (Or.inr ⟨v.tag, hvT, rfl⟩)
        refine ⟨st2, ?_, hst2⟩
        simp only [buildBuckets, hpv, bucketsAux, if_pos hteq]
        exact hbb

theorem mem_filterMap_fst (m : List (Option PropValue × List Artifact)) (v : PropValue) :
    v ∈ m.filterMap (fun q => q.1) ↔ some v ∈ keysOf m := by
  rw [List.mem_filterMap]
  simp only [keysOf, List.mem_map]

theorem keptValues_subset (g : Grouping) (l : List PropValue) :
    keptValues g l ⊆ l := by
  rw [keptValues]
  split
  · exact List.drop_subset _ _
  · exact List.take_subset _ _

/-- Every group produced by the pure selection is a bucket: the filter of
the input group by one present key. -/
theorem selPure_group_spec (g : Grouping) (G : List Artifact) :
    ∀ B ∈ selPure g G, ∃ kv, kv ∈ keysOf (bucketsOf g.property_name G) ∧
      B = G.filter (fun a => decide (_get_property_value a g.property_name = kv)) := by
  intro B hB
  simp only [selPure, selPureM] at hB
  split at hB
  · rw [List.mem_map] at hB
    obtain ⟨q, hq, hq2⟩ := hB
    refine ⟨q.1, ?_, ?_⟩
    · simp only [keysOf, List.mem_map]
      exact ⟨q, hq, rfl⟩
    · rw [← hq2, ← lookupBucket_bucketsOf g.property_name G q.1]
      exact (entry_lookupBucket _ (nodup_keysOf_bucketsOf _ _) q.1 q.2
        (by rw [show (q.1, q.2) = q from rfl]; exact hq)).symm
  · rename_i hk
    split at hB
    · rcases List.mem_append.mp hB with hB1 | hB1
      · rw [List.mem_map] at hB1
        obtain ⟨v, hv, hv2⟩ := hB1
        have hvk : some v ∈ keysOf (bucketsOf g.property_name G) := by
          rw [← mem_filterMap_fst]
          have := keptValues_subset g _ hv
          exact ((sortPV_perm _).subset) this
        exact ⟨some v, hvk, by rw [← hv2, lookupBucket_bucketsOf]⟩
      · rw [List.mem_singleton] at hB1
        rename_i hcond
        have hnone : none ∈ keysOf (bucketsOf g.property_name G) :=
          (any_isNone_iff _).mp hcond.1
        exact ⟨none, hnone, by rw [hB1, lookupBucket_bucketsOf]⟩
    · rw [List.mem_map] at hB
      obtain ⟨v, hv, hv2⟩ := hB
      have hvk : some v ∈ keysOf (bucketsOf g.property_name G) := by
        rw [← mem_filterMap_fst]
        have := keptValues_subset g _ hv
        exact ((sortPV_perm _).subset) this
      exact ⟨some v, hvk, by rw [← hv2, lookupBucket_bucketsOf]⟩

theorem selPure_group_subset (g : Grouping) (G : List Artifact) :
    ∀ B ∈ selPure g G, B ⊆ G := by
  intro B hB
  obtain ⟨kv, -, hBf⟩ := selPure_group_spec g G B hB
  rw [hBf]
  exact filter_subset_self _ _

theorem selPure_group_nonempty (g : Grouping) (G : List Artifact) :
    ∀ B ∈ selPure g G, B ≠ [] := by
  intro B hB
  obtain ⟨kv, hkv, hBf⟩ := selPure_group_spec g G B hB
  rw [mem_keysOf_bucketsOf] at hkv
  obtain ⟨a, ha, hpa⟩ := hkv
  intro hnil
  have : a ∈ B := by
    rw [hBf, List.mem_filter]
    exact ⟨ha, by rw [hpa]; simp⟩
  rw [hnil] at this
  exact absurd this (List.not_mem_nil a)

theorem processLevel_ok (g : Grouping) (T : List PropTag)
    (hT : ∀ t1 ∈ T, ∀ t2 ∈ T, t1 = t2) (hwf : wfOrder g) :
    ∀ (GS : List (List Artifact)) (st : Option PropTag),
      (∀ G ∈ GS, ∀ t ∈ tagsOf g.property_name G, t ∈ T) →
      (st = none ∨ ∃ t ∈ T, st = some t) →
      processGroupsForGrouping g st GS = .ok ((GS.map (selPure g)).flatten) := by
  intro GS
  induction GS with
  | nil => intro st _ _; simp [processGroupsForGrouping]
  | cons G rest ih =>
    intro st hGS hst
    obtain ⟨st2, hbb, hst2⟩ := buildBuckets_ok g.property_name T hT G st []
      (hGS G (List.mem_cons_self G rest)) hst
    have hsel := selectBuckets_eq_selPureM g (bucketsAux g.property_name [] G) hwf
    have hrest := ih st2 (fun G' hG' => hGS G' (List.mem_cons_of_mem G hG')) hst2
    simp only [processGroupsForGrouping, hbb, hsel, hrest, List.map_cons,
      List.flatten_cons]
    rfl

theorem processGroupings_ok (A : List Artifact) :
    ∀ (gs : List Grouping) (GS : List (List Artifact)),
      (∀ g ∈ gs, wfOrder g) → (∀ g ∈ gs, homogeneousOn g.property_name A) →
      (∀ G ∈ GS, G ⊆ A) →
      processGroupings gs GS = .ok (bfsPure gs GS) := by
  intro gs
  induction gs with
  | nil => intro GS _ _ _; rfl
  | cons g rest ih =>
    intro GS hwf hhom hsub
    have hlev := processLevel_ok g (tagsOf g.property_name A)
      (hhom g (List.mem_cons_self g rest)) (hwf g (List.mem_cons_self g rest)) GS none
      (fun G hG => tagsOf_subset g.property_name G A (hsub G hG)) (Or.inl rfl)
    have hnext : ∀ G' ∈ (GS.map (selPure g)).flatten, G' ⊆ A := by
      intro G' hG'
      rw [List.mem_flatten] at hG'
      obtain ⟨L, hL, hG'L⟩ := hG'
      rw [List.mem_map] at hL
      obtain ⟨G, hG, hLG⟩ := hL
      subst hLG
      exact fun a ha => hsub G hG (selPure_group_subset g G G' hG'L ha)
    have hrec := ih ((GS.map (selPure g)).flatten)
      (fun g' hg' => hwf g' (List.mem_cons_of_mem g hg'))
      (fun g' hg' => hhom g' (List.mem_cons_of_mem g hg')) hnext
    simp only [processGroupings, hlev, hrec, bfsPure]

theorem flatten_forall₂_perm {α : Type} :
    ∀ (X Y : List (List α)), List.Forall₂ List.Perm X Y →
      List.Perm X.flatten Y.flatten := by
  intro X Y h
  induction h with
  | nil => simp
  | cons hxy hrest ih =>
    simp only [List.flatten_cons]
    exact hxy.append ih

theorem flatten_map_flatten {α : Type} (L : List (List (List α))) :
    L.flatten.flatten = (L.map List.flatten).flatten := by
  induction L with
  | nil => rfl
  | cons x rest ih => simp [List.flatten_cons, List.flatten_append, ih]

theorem bfsPure_flatten_eq_surv :
    ∀ (gs : List Grouping) (GS : List (List Artifact)),
      (bfsPure gs GS).flatten = (GS.map (surv gs)).flatten := by
  intro gs
  induction gs with
  | nil => intro GS; simp [bfsPure, surv]
  | cons g rest ih =>
    intro GS
    simp only [bfsPure]
    rw [ih, List.map_flatten, List.map_map, flatten_map_flatten, List.map_map]
    rfl

/-! ### Claim C5: single-grouping LARGEST characterization -/

theorem perm_of_nodup_mem_iff {α : Type} (l₁ l₂ : List α) (h₁ : l₁.Nodup) (h₂ : l₂.Nodup)
    (h : ∀ x, x ∈ l₁ ↔ x ∈ l₂) : List.Perm l₁ l₂ :=
  List.Subperm.antisymm
    (List.subperm_of_subset h₁ (fun x hx => (h x).mp hx))
    (List.subperm_of_subset h₂ (fun x hx => (h x).mpr hx))

theorem nodup_filterMap_fst (m : List (Option PropValue × List Artifact))
    (h : (keysOf m).Nodup) : (m.filterMap (fun q => q.1)).Nodup := by
  have heq : m.filterMap (fun q => q.1) = (keysOf m).filterMap id := by
    rw [keysOf, List.filterMap_map]
    rfl
  rw [heq]
  apply h.filterMap
  intro a a' b hb hb'
  simp only [id, Option.mem_def] at hb hb'
  rw [hb, hb']

theorem mem_ids_flatten (groups : List (List Artifact)) (a : Artifact) (A : List Artifact)
    (hids : (A.map (fun x => x.id)).Nodup) (ha : a ∈ A)
    (hsub : ∀ B ∈ groups, B ⊆ A) :
    a.id ∈ (groups.map (fun group => group.map (fun x => x.id))).flatten ↔
      ∃ B ∈ groups, a ∈ B := by
  constructor
  · intro h
    rw [List.mem_flatten] at h
    obtain ⟨l, hl, hal⟩ := h
    rw [List.mem_map] at hl
    obtain ⟨B, hB, hlB⟩ := hl
    subst hlB
    rw [List.mem_map] at hal
    obtain ⟨b, hb, hbid⟩ := hal
    have hba : b = a := List.inj_on_of_nodup_map hids (hsub B hB hb) ha hbid
    exact ⟨B, hB, hba ▸ hb⟩
  · rintro ⟨B, hB, haB⟩
    rw [List.mem_flatten]
    exact ⟨B.map (fun x => x.id), List.mem_map.mpr ⟨B, hB, rfl⟩,
      List.mem_map.mpr ⟨a, haB, rfl⟩⟩

/-- The sorted non-null bucket keys are the sorted distinct values. -/
theorem sorted_keys_eq_sorted_distinct (p : String) (A : List Artifact) :
    sortPV ((bucketsOf p A).filterMap (fun q => q.1)) = sortPV (distinctValues p A) := by
  apply sortPV_eq_of_perm
  apply perm_of_nodup_mem_iff
  · exact nodup_filterMap_fst _ (nodup_keysOf_bucketsOf p A)
  · exact (nonNullValues p A).nodup_dedup
  · intro v
    rw [mem_filterMap_fst, mem_keysOf_bucketsOf, distinctValues, List.mem_dedup,
      nonNullValues, List.mem_filterMap]

/-- Claim C5: for a single grouping with positive keep count and LARGEST
order, the delete set is exactly the artifacts whose value is not among the
`k` largest distinct non-null values, and the null bucket survives exactly
when fewer than `k` distinct non-null values exist. -/
theorem kpvg_single_largest_characterization (A : List Artifact) (p : String) (k : Int)
    (hk : 0 < k) (hids : (A.map (fun a => a.id)).Nodup) (hhom : homogeneousOn p A) :
    ∃ D, _artifacts_not_kept_by_property_value_groups A ⟨[⟨p, k, KEEP_ORDER_LARGEST⟩]⟩ =
        .ok D ∧
      ∀ a ∈ A, (a ∈ D ↔
        (match _get_property_value a p with
         | some v => v ∉ kLargestValues p A k.toNat
         | none => k.toNat ≤ (distinctValues p A).length)) := by
  have hwfg : wfOrder ⟨p, k, KEEP_ORDER_LARGEST⟩ := Or.inr (Or.inl rfl)
  have hpg := processGroupings_ok A [⟨p, k, KEEP_ORDER_LARGEST⟩] [A]
    (by
      intro g' hg'
      rw [List.mem_singleton] at hg'
      subst hg'
      exact hwfg)
    (by
      intro g' hg'
      rw [List.mem_singleton] at hg'
      subst hg'
      exact hhom)
    (by
      intro G hG
      rw [List.mem_singleton] at hG
      subst hG
      exact fun x hx => hx)
  simp only [_artifacts_not_kept_by_property_value_groups, hpg]
  refine ⟨_, rfl, ?_⟩
  intro a ha
  rw [List.mem_filter, decide_eq_true_eq]
  have hgroups : bfsPure [⟨p, k, KEEP_ORDER_LARGEST⟩] [A] =
      selPure ⟨p, k, KEEP_ORDER_LARGEST⟩ A := by
    simp [bfsPure]
  rw [hgroups]
  have hsub := selPure_group_subset ⟨p, k, KEEP_ORDER_LARGEST⟩ A
  rw [mem_ids_flatten _ a A hids ha hsub]
  -- unfold the selection
  have hk' : ¬ ((⟨p, k, KEEP_ORDER_LARGEST⟩ : Grouping).keep_num ≤ 0) := by
    simpa using not_le.mpr hk
  have hmem_bucket : ∀ kv, a ∈ lookupBucket (bucketsOf p A) kv ↔
      _get_property_value a p = kv := by
    intro kv
    rw [lookupBucket_bucketsOf, List.mem_filter, decide_eq_true_eq]
    constructor
    · exact fun h => h.2
    · exact fun h => ⟨ha, h⟩
  have hkeep_eq : keptValues ⟨p, k, KEEP_ORDER_LARGEST⟩
      (sortPV ((bucketsOf p A).filterMap (fun q => q.1))) = kLargestValues p A k.toNat := by
    rw [sorted_keys_eq_sorted_distinct]
    rw [keptValues, if_pos (Or.inr rfl)]
    rfl
  have hselchar : ∀ B, B ∈ selPure ⟨p, k, KEEP_ORDER_LARGEST⟩ A ↔
      ((∃ v ∈ kLargestValues p A k.toNat, B = lookupBucket (bucketsOf p A) (some v)) ∨
       ((((bucketsOf p A).any (fun q => q.1.isNone)) = true ∧
          ((kLargestValues p A k.toNat).length : Int) < k) ∧
        B = lookupBucket (bucketsOf p A) none)) := by
    intro B
    simp only [selPure, selPureM, if_neg hk', hkeep_eq]
    by_cases hcond : (((bucketsOf p A).any (fun q => q.1.isNone)) = true ∧
        ((kLargestValues p A k.toNat).length : Int) < k)
    · rw [if_pos hcond]
      rw [List.mem_append, List.mem_map, List.mem_singleton]
      constructor
      · rintro (⟨v, hv, hB⟩ | hB)
        · exact Or.inl ⟨v, hv, hB.symm⟩
        · exact Or.inr ⟨hcond, hB⟩
      · rintro (⟨v, hv, hB⟩ | ⟨-, hB⟩)
        · exact Or.inl ⟨v, hv, hB.symm⟩
        · exact Or.inr hB
    · rw [if_neg hcond]
      rw [List.mem_map]
      constructor
      · rintro ⟨v, hv, hB⟩
        exact Or.inl ⟨v, hv, hB.symm⟩
      · rintro (⟨v, hv, hB⟩ | ⟨hc, -⟩)
        · exact ⟨v, hv, hB.symm⟩
        · exact absurd hc hcond
  have hlen_sorted : (sortPV (distinctValues p A)).length = (distinctValues p A).length :=
    (sortPV_perm _).length_eq
  have hklen : ((kLargestValues p A k.toNat).length : Int) < k ↔
      (distinctValues p A).length < k.toNat := by
    have hkk : (k.toNat : Int) = k := Int.toNat_of_nonneg (le_of_lt hk)
    rw [← hkk, Nat.cast_lt, kLargestValues, List.length_drop, hlen_sorted]
    omega
  cases hpv : _get_property_value a p with
  | some v =>
    constructor
    · rintro ⟨haA, hnotin⟩ hin
      apply hnotin
      refine ⟨lookupBucket (bucketsOf p A) (some v), ?_, (hmem_bucket (some v)).mpr hpv⟩
      rw [hselchar]
      exact Or.inl ⟨v, hin, rfl⟩
    · intro hnotin
      refine ⟨ha, ?_⟩
      rintro ⟨B, hBsel, haB⟩
      rw [hselchar] at hBsel
      rcases hBsel with ⟨w, hw, hBw⟩ | ⟨-, hBn⟩
      · rw [hBw, hmem_bucket] at haB
        rw [hpv] at haB
        injection haB with haB
        exact hnotin (haB ▸ hw)
      · rw [hBn, hmem_bucket] at haB
        rw [hpv] at haB
        exact absurd haB (by simp)
  | none =>
    have hany : ((bucketsOf p A).any (fun q => q.1.isNone)) = true := by
      rw [any_isNone_iff, mem_keysOf_bucketsOf]
      exact ⟨a, ha, hpv⟩
    constructor
    · rintro ⟨haA, hnotin⟩
      by_contra hlt
      rw [not_le] at hlt
      apply hnotin
      refine ⟨lookupBucket (bucketsOf p A) none, ?_, (hmem_bucket none).mpr hpv⟩
      rw [hselchar]
      exact Or.inr ⟨⟨hany, hklen.mpr hlt⟩, rfl⟩
    · intro hge
      refine ⟨ha, ?_⟩
      rintro ⟨B, hBsel, haB⟩
      rw [hselchar] at hBsel
      rcases hBsel with ⟨w, hw, hBw⟩ | ⟨⟨-, hlen⟩, hBn⟩
      · rw [hBw, hmem_bucket] at haB
        rw [hpv] at haB
        exact absurd haB (by simp)
      · rw [hklen] at hlen
        omega

/-- Witness for claim C5 on the spec's example: keep the span-3 artifact,
delete the span-1, 1, 2 artifacts. -/
theorem kpvg_single_largest_characterization_witness :
    (∃ D, _artifacts_not_kept_by_property_value_groups spanA
          ⟨[⟨"span", 1, KEEP_ORDER_LARGEST⟩]⟩ = .ok D ∧
        ∀ a ∈ spanA, (a ∈ D ↔
          (match _get_property_value a "span" with
           | some v => v ∉ kLargestValues "span" spanA (1 : Int).toNat
           | none => (1 : Int).toNat ≤ (distinctValues "span" spanA).length))) ∧
    _artifacts_not_kept_by_property_value_groups spanA
        ⟨[⟨"span", 1, KEEP_ORDER_LARGEST⟩]⟩ =
      .ok [spanArt 1 1, spanArt 2 1, spanArt 3 2] :=
  ⟨kpvg_single_largest_characterization spanA "span" 1 (by decide) (by decide)
     (by unfold homogeneousOn; decide),
   by rfl⟩

/-! ### Claim C9: idempotence.  Sorted-count lemmas for the
KeepMostRecentlyPublished half. -/

theorem sorted_get_le (s : List Int) (hs : s.Pairwise (fun a b => intLe a b = true))
    (i j : Nat) (hij : i ≤ j) (hj : j < s.length) :
    s.get ⟨i, lt_of_le_of_lt hij hj⟩ ≤ s[j] := by
  rcases Nat.eq_or_lt_of_le hij with rfl | hlt
  · exact le_refl _
  · have h := List.pairwise_iff_get.mp hs ⟨i, lt_of_le_of_lt hij hj⟩ ⟨j, hj⟩ hlt
    simpa [intLe, List.get_eq_getElem] using h

theorem sorted_drop_ge (s : List Int) (hs : s.Pairwise (fun a b => intLe a b = true))
    (i : Nat) (hi : i < s.length) : ∀ t ∈ s.drop i, s[i] ≤ t := by
  intro t ht
  rw [List.mem_iff_getElem] at ht
  obtain ⟨j, hj, htj⟩ := ht
  rw [List.length_drop] at hj
  rw [List.getElem_drop] at htj
  subst htj
  exact sorted_get_le s hs i (i + j) (by omega) (by omega)

theorem sorted_take_le (s : List Int) (hs : s.Pairwise (fun a b => intLe a b = true))
    (i : Nat) (hi : i < s.length) : ∀ t ∈ s.take i, t ≤ s[i] := by
  intro t ht
  rw [List.mem_iff_getElem] at ht
  obtain ⟨j, hj, htj⟩ := ht
  rw [List.length_take] at hj
  rw [List.getElem_take] at htj
  subst htj
  exact sorted_get_le s hs j i (by omega) hi

/-- At most `n - 1` elements lie strictly above the `(len-n)`-th smallest. -/
theorem countP_gt_cutoff_le (l : List Int) (n : Nat) (hn : 0 < n) (hlen : n < l.length) :
    l.countP (fun t => decide ((sortInt l).getD (l.length - n) 0 < t)) ≤ n - 1 := by
  have hslen : (sortInt l).length = l.length := sortInt_length l
  have hi : l.length - n < (sortInt l).length := by omega
  set c := (sortInt l).getD (l.length - n) 0 with hc
  have hperm : l.countP (fun t => decide (c < t)) =
      (sortInt l).countP (fun t => decide (c < t)) :=
    ((sortInt_perm l).countP_eq _).symm
  rw [hperm]
  have h1 : (sortInt l).countP (fun t => decide (c < t)) =
      ((sortInt l).take (l.length - n)).countP (fun t => decide (c < t)) +
      ((sortInt l).drop (l.length - n)).countP (fun t => decide (c < t)) := by
    conv_lhs => rw [← List.take_append_drop (l.length - n) (sortInt l)]
    rw [List.countP_append]
  rw [h1]
  have htake : ((sortInt l).take (l.length - n)).countP (fun t => decide (c < t)) = 0 := by
    rw [List.countP_eq_zero]
    intro t ht
    have h2 := sorted_take_le (sortInt l) (sortInt_pairwise l) (l.length - n) hi t ht
    rw [← List.getD_eq_getElem (sortInt l) 0 hi, ← hc] at h2
    simp only [decide_eq_true_eq]
    omega
  have hdropeq : (sortInt l).drop (l.length - n) =
      c :: (sortInt l).drop (l.length - n + 1) := by
    rw [hc, List.getD_eq_getElem (sortInt l) 0 hi]
    exact List.drop_eq_getElem_cons hi
  have hdrop : ((sortInt l).drop (l.length - n)).countP (fun t => decide (c < t)) ≤ n - 1 := by
    rw [hdropeq, List.countP_cons]
    have hcc : (decide (c < c) : Bool) = false := by
      simp
    rw [hcc]
    simp only [Bool.false_eq_true, if_false, add_zero]
    have h3 := List.countP_le_length (l := (sortInt l).drop (l.length - n + 1))
      (p := fun t => decide (c < t))
    rw [List.length_drop] at h3
    omega
  omega

/-- If fewer than `n` elements lie strictly above `c`, the `(len-n)`-th
smallest is at most `c`. -/
theorem cutoff_le_of_countP_lt (K : List Int) (c : Int) (n : Nat) (hn : 0 < n)
    (hlen : n < K.length)
    (hcount : K.countP (fun t => decide (c < t)) < n) :
    (sortInt K).getD (K.length - n) 0 ≤ c := by
  have hslen : (sortInt K).length = K.length := sortInt_length K
  have hi : K.length - n < (sortInt K).length := by omega
  set d := (sortInt K).getD (K.length - n) 0 with hd
  by_contra h
  rw [not_le] at h
  have hall : ∀ t ∈ (sortInt K).drop (K.length - n), decide (c < t) = true := by
    intro t ht
    have h2 := sorted_drop_ge (sortInt K) (sortInt_pairwise K) (K.length - n) hi t ht
    rw [← List.getD_eq_getElem (sortInt K) 0 hi, ← hd] at h2
    simp only [decide_eq_true_eq]
    omega
  have hdropcount : ((sortInt K).drop (K.length - n)).countP
      (fun t => decide (c < t)) = n := by
    rw [List.countP_eq_length.mpr hall, List.length_drop]
    omega
  have hperm : K.countP (fun t => decide (c < t)) =
      (sortInt K).countP (fun t => decide (c < t)) :=
    ((sortInt_perm K).countP_eq _).symm
  have h1 : (sortInt K).countP (fun t => decide (c < t)) =
      ((sortInt K).take (K.length - n)).countP (fun t => decide (c < t)) +
      ((sortInt K).drop (K.length - n)).countP (fun t => decide (c < t)) := by
    conv_lhs => rw [← List.take_append_drop (K.length - n) (sortInt K)]
    rw [List.countP_append]
  rw [hperm, h1, hdropcount] at hcount
  omega

/-- KeepMostRecentlyPublished is idempotent: re-evaluating on the kept
artifacts deletes nothing. -/
theorem kmrp_idempotent (A : List Artifact) (kmrp : KeepMostRecentlyPublished) :
    _artifacts_not_most_recently_published
      (keptAfter A (_artifacts_not_most_recently_published A kmrp)) kmrp = [] := by
  by_cases h0 : kmrp.num_artifacts ≤ 0
  · have hD : _artifacts_not_most_recently_published A kmrp = A := by
      simp [_artifacts_not_most_recently_published, h0]
    rw [hD]
    have hK : keptAfter A A = [] := by
      rw [keptAfter, List.filter_eq_nil_iff]
      intro a ha
      simp [ha]
    rw [hK]
    simp [_artifacts_not_most_recently_published, h0]
  · by_cases h1 : (A.length : Int) ≤ kmrp.num_artifacts
    · have hD : _artifacts_not_most_recently_published A kmrp = [] := by
        simp [_artifacts_not_most_recently_published, h0, h1]
      rw [hD]
      have hK : keptAfter A [] = A := by
        rw [keptAfter]
        apply List.filter_eq_self.mpr
        intro a _
        simp
      rw [hK]
      simp [_artifacts_not_most_recently_published, h0, h1]
    · have hlenA : (sortInt (A.map (fun a => a.create_time_since_epoch))).length = A.length := by
        rw [sortInt_length, List.length_map]
      set c := (sortInt (A.map (fun a => a.create_time_since_epoch))).getD
        ((sortInt (A.map (fun a => a.create_time_since_epoch))).length -
          kmrp.num_artifacts.toNat) 0 with hc
      have hD : _artifacts_not_most_recently_published A kmrp =
          A.filter (fun a => decide (a.create_time_since_epoch < c)) := by
        simp only [_artifacts_not_most_recently_published, if_neg h0, if_neg h1]
      have hKeq : keptAfter A (_artifacts_not_most_recently_published A kmrp) =
          A.filter (fun a => decide (¬ a.create_time_since_epoch < c)) := by
        rw [keptAfter, hD]
        apply List.filter_congr
        intro a ha
        rw [decide_eq_decide]
        rw [List.mem_filter]
        simp [ha]
      rw [hKeq]
      set K := A.filter (fun a => decide (¬ a.create_time_since_epoch < c)) with hKdef
      have hn : 0 < kmrp.num_artifacts.toNat := by omega
      have hKmem : ∀ a ∈ K, c ≤ a.create_time_since_epoch := by
        intro a ha
        rw [hKdef, List.mem_filter] at ha
        have := ha.2
        simp only [decide_eq_true_eq, not_lt] at this
        exact this
      by_cases h2 : (K.length : Int) ≤ kmrp.num_artifacts
      · simp [_artifacts_not_most_recently_published, h0, h2]
      · have hcount : (K.map (fun a => a.create_time_since_epoch)).countP
            (fun t => decide (c < t)) < kmrp.num_artifacts.toNat := by
          have e1 : (K.map (fun a => a.create_time_since_epoch)).countP
              (fun t => decide (c < t)) =
              K.countP (fun a => decide (c < a.create_time_since_epoch)) := by
            rw [List.countP_map]
            rfl
          have e2 : K.countP (fun a => decide (c < a.create_time_since_epoch)) ≤
              A.countP (fun a => decide (c < a.create_time_since_epoch)) := by
            rw [hKdef, List.countP_filter]
            apply List.countP_mono_left
            intro a _ h
            rw [Bool.and_eq_true] at h
            exact h.1
          have e3 : A.countP (fun a => decide (c < a.create_time_since_epoch)) =
              (A.map (fun a => a.create_time_since_epoch)).countP
                (fun t => decide (c < t)) := by
            rw [List.countP_map]
            rfl
          have e4 := countP_gt_cutoff_le (A.map (fun a => a.create_time_since_epoch))
            kmrp.num_artifacts.toNat hn
            (by rw [List.length_map]; omega)
          rw [List.length_map] at e4
          rw [hc, hlenA] at e1 e2 e3 ⊢
          omega
        have hKlen : kmrp.num_artifacts.toNat < (K.map
            (fun a => a.create_time_since_epoch)).length := by
          rw [List.length_map]
          omega
        have hcut := cutoff_le_of_countP_lt
          (K.map (fun a => a.create_time_since_epoch)) c
          kmrp.num_artifacts.toNat hn hKlen hcount
        simp only [_artifacts_not_most_recently_published, if_neg h0, if_neg h2]
        rw [List.filter_eq_nil_iff]
        intro a ha
        have h5 := hKmem a ha
        have hlenK : (sortInt (K.map (fun a => a.create_time_since_epoch))).length =
            K.length := by
          rw [sortInt_length, List.length_map]
        rw [hlenK]
        rw [List.length_map] at hcut
        simp only [decide_eq_true_eq, not_lt]
        omega

/-! ### Re-partitioning a concatenation of uniform blocks -/

theorem bucketsAux_uniform (p : String) (kv : Option PropValue) :
    ∀ (T : List Artifact) (acc : List Artifact),
      (∀ a ∈ T, _get_property_value a p = kv) →
      bucketsAux p [(kv, acc)] T = [(kv, acc ++ T)] := by
  intro T
  induction T with
  | nil => intro acc _; simp [bucketsAux]
  | cons a rest ih =>
    intro acc h
    simp only [bucketsAux]
    rw [h a (List.mem_cons_self a rest)]
    have hins : insertGrouped [(kv, acc)] kv a = [(kv, acc ++ [a])] := by
      simp [insertGrouped]
    rw [hins, ih (acc ++ [a]) (fun b hb => h b (List.mem_cons_of_mem a hb))]
    simp

theorem bucketsOf_uniform (p : String) (kv : Option PropValue) (a : Artifact)
    (T' : List Artifact) (h : ∀ b ∈ a :: T', _get_property_value b p = kv) :
    bucketsOf p (a :: T') = [(kv, a :: T')] := by
  rw [bucketsOf]
  simp only [bucketsAux]
  rw [h a (List.mem_cons_self a T')]
  have hins : insertGrouped [] kv a = [(kv, [a])] := rfl
  rw [hins, bucketsAux_uniform p kv T' [a] (fun b hb => h b (List.mem_cons_of_mem a hb))]
  rfl

theorem bucketsAux_cons_skip (p : String) (kv : Option PropValue) (T : List Artifact) :
    ∀ (R : List Artifact) (m : List (Option PropValue × List Artifact)),
      (∀ a ∈ R, _get_property_value a p ≠ kv) →
      bucketsAux p ((kv, T) :: m) R = (kv, T) :: bucketsAux p m R := by
  intro R
  induction R with
  | nil => intro m _; rfl
  | cons a rest ih =>
    intro m h
    simp only [bucketsAux]
    have hne : ¬ (kv = _get_property_value a p) :=
      fun hh => h a (List.mem_cons_self a rest) hh.symm
    have hins : insertGrouped ((kv, T) :: m) (_get_property_value a p) a =
        (kv, T) :: insertGrouped m (_get_property_value a p) a := by
      simp [insertGrouped, hne]
    rw [hins, ih _ (fun b hb => h b (List.mem_cons_of_mem a hb))]

theorem bucketsAux_append (p : String) :
    ∀ (xs ys : List Artifact) (m : List (Option PropValue × List Artifact)),
      bucketsAux p m (xs ++ ys) = bucketsAux p (bucketsAux p m xs) ys := by
  intro xs
  induction xs with
  | nil => intro ys m; rfl
  | cons a rest ih =>
    intro ys m
    simp only [List.cons_append, bucketsAux]
    exact ih ys _

theorem forall₂_exists_left {α β : Type} {R : α → β → Prop} :
    ∀ {l1 : List α} {l2 : List β}, List.Forall₂ R l1 l2 →
      ∀ b ∈ l2, ∃ a ∈ l1, R a b := by
  intro l1 l2 h
  induction h with
  | nil => intro b hb; exact absurd hb (List.not_mem_nil b)
  | cons hab hrest ih =>
    intro b hb
    rcases List.mem_cons.mp hb with rfl | hb2
    · exact ⟨_, List.mem_cons_self _ _, hab⟩
    · obtain ⟨a, ha, hR⟩ := ih b hb2
      exact ⟨a, List.mem_cons_of_mem _ ha, hR⟩

/-- Partitioning a concatenation of nonempty uniform blocks with distinct
keys recovers exactly the key-block association. -/
theorem bucketsOf_flatten_uniform (p : String) :
    ∀ (bkeys : List (Option PropValue)) (blocks : List (List Artifact)),
      List.Forall₂ (fun kv T => T ≠ [] ∧ ∀ a ∈ T, _get_property_value a p = kv)
        bkeys blocks →
      bkeys.Nodup →
      bucketsOf p blocks.flatten = bkeys.zip blocks := by
  intro bkeys blocks h
  induction h with
  | nil => intro _; rfl
  | @cons kv T bkeys' blocks' hkvT hrest ih =>
    intro hnd
    obtain ⟨hTne, hTuni⟩ := hkvT
    rw [List.nodup_cons] at hnd
    obtain ⟨hkvnot, hnd'⟩ := hnd
    obtain ⟨a, T', rfl⟩ : ∃ a T', T = a :: T' := by
      cases T with
      | nil => exact absurd rfl hTne
      | cons a T' => exact ⟨a, T', rfl⟩
    simp only [List.flatten_cons]
    rw [bucketsOf, bucketsAux_append]
    rw [show bucketsAux p [] (a :: T') = bucketsOf p (a :: T') from rfl]
    rw [bucketsOf_uniform p kv a T' hTuni]
    rw [bucketsAux_cons_skip p kv (a :: T') blocks'.flatten []]
    · rw [show bucketsAux p [] blocks'.flatten = bucketsOf p blocks'.flatten from rfl]
      rw [ih hnd']
      rfl
    · intro b hb
      rw [List.mem_flatten] at hb
      obtain ⟨T2, hT2, hbT2⟩ := hb
      obtain ⟨kv2, hkv2mem, -, hkv2uni⟩ := forall₂_exists_left hrest T2 hT2
      rw [hkv2uni b hbT2]
      intro heq
      rw [heq] at hkv2mem
      exact hkvnot hkv2mem

theorem map_snd_eq_keys_map (m : List (Option PropValue × List Artifact))
    (hnd : (keysOf m).Nodup) :
    m.map (fun q => q.2) = (keysOf m).map (fun kv => lookupBucket m kv) := by
  have h1 : m.map (fun q => q.2) = m.map (fun q => lookupBucket m q.1) := by
    apply List.map_congr_left
    intro q hq
    exact (entry_lookupBucket m hnd q.1 q.2 hq).symm
  rw [h1, keysOf, List.map_map]
  rfl

theorem selPure_eq_keys_map (g : Grouping) (G : List Artifact) :
    selPure g G =
      (selKeys g G).map (fun kv => lookupBucket (bucketsOf g.property_name G) kv) := by
  by_cases hk : g.keep_num ≤ 0
  · simp only [selPure, selPureM, selKeys, if_pos hk]
    exact map_snd_eq_keys_map _ (nodup_keysOf_bucketsOf _ _)
  · simp only [selPure, selPureM, selKeys, if_neg hk]
    split
    · rw [List.map_append, List.map_map]
      rfl
    · rw [List.map_map]
      rfl

theorem keptValues_sublist (g : Grouping) (l : List PropValue) :
    (keptValues g l).Sublist l := by
  rw [keptValues]
  split
  · exact List.drop_sublist _ _
  · exact List.take_sublist _ _

theorem keptValues_length_le (g : Grouping) (l : List PropValue) :
    (keptValues g l).length ≤ g.keep_num.toNat := by
  rw [keptValues]
  split
  · rw [List.length_drop]
    omega
  · rw [List.length_take]
    omega

theorem keptValues_of_short (g : Grouping) (l : List PropValue)
    (h : l.length ≤ g.keep_num.toNat) : keptValues g l = l := by
  rw [keptValues]
  split
  · rw [Nat.sub_eq_zero_of_le h, List.drop_zero]
  · exact List.take_of_length_le h

theorem sorted_nonNullKeys (g : Grouping) (G : List Artifact) :
    (sortPV ((bucketsOf g.property_name G).filterMap (fun q => q.1))).Nodup :=
  ((sortPV_perm _).nodup_iff).mpr
    (nodup_filterMap_fst _ (nodup_keysOf_bucketsOf _ _))

theorem selKeys_nodup (g : Grouping) (G : List Artifact) : (selKeys g G).Nodup := by
  by_cases hk : g.keep_num ≤ 0
  · simp only [selKeys, if_pos hk]
    exact nodup_keysOf_bucketsOf _ _
  · have hWnd : (keptValues g (sortPV ((bucketsOf g.property_name G).filterMap
        (fun q => q.1)))).Nodup :=
      (sorted_nonNullKeys g G).sublist (keptValues_sublist g _)
    have hmapnd : ((keptValues g (sortPV ((bucketsOf g.property_name G).filterMap
        (fun q => q.1)))).map some).Nodup :=
      hWnd.map (fun _ _ h => Option.some.inj h)
    simp only [selKeys, if_neg hk]
    split
    · rw [List.nodup_append]
      refine ⟨hmapnd, List.nodup_singleton _, ?_⟩
      intro kv hkv
      rw [List.mem_map] at hkv
      obtain ⟨v, -, hv⟩ := hkv
      rw [List.mem_singleton]
      rw [← hv]
      simp
    · exact hmapnd

theorem selKeys_mem (g : Grouping) (G : List Artifact) :
    ∀ kv ∈ selKeys g G, kv ∈ keysOf (bucketsOf g.property_name G) := by
  intro kv hkv
  by_cases hk : g.keep_num ≤ 0
  · simp only [selKeys, if_pos hk] at hkv
    exact hkv
  · simp only [selKeys, if_neg hk] at hkv
    have hW : ∀ v, v ∈ keptValues g (sortPV ((bucketsOf g.property_name G).filterMap
        (fun q => q.1))) → some v ∈ keysOf (bucketsOf g.property_name G) := by
      intro v hv
      rw [← mem_filterMap_fst]
      exact (sortPV_perm _).subset ((keptValues_sublist g _).subset hv)
    split at hkv
    · rcases List.mem_append.mp hkv with h | h
      · rw [List.mem_map] at h
        obtain ⟨v, hv, rfl⟩ := h
        exact hW v hv
      · rw [List.mem_singleton] at h
        subst h
        rename_i hcond
        exact (any_isNone_iff _).mp hcond.1
    · rw [List.mem_map] at hkv
      obtain ⟨v, hv, rfl⟩ := hkv
      exact hW v hv

theorem bucket_nonempty_of_mem_keys (p : String) (G : List Artifact)
    (kv : Option PropValue) (h : kv ∈ keysOf (bucketsOf p G)) :
    lookupBucket (bucketsOf p G) kv ≠ [] := by
  rw [mem_keysOf_bucketsOf] at h
  obtain ⟨a, ha, hpa⟩ := h
  rw [lookupBucket_bucketsOf]
  intro hnil
  have hmem : a ∈ G.filter (fun b => decide (_get_property_value b p = kv)) := by
    rw [List.mem_filter]
    exact ⟨ha, by rw [hpa]; simp⟩
  rw [hnil] at hmem
  exact absurd hmem (List.not_mem_nil a)

theorem selKeys_blocks_forall₂ (g : Grouping) (G : List Artifact)
    (F : List Artifact → List Artifact)
    (hF1 : ∀ T, F T ⊆ T) (hF2 : ∀ T, T ≠ [] → F T ≠ []) :
    List.Forall₂ (fun kv T => T ≠ [] ∧
        ∀ a ∈ T, _get_property_value a g.property_name = kv)
      (selKeys g G) ((selPure g G).map F) := by
  rw [selPure_eq_keys_map, List.map_map]
  rw [List.forall₂_map_right_iff]
  rw [List.forall₂_same]
  intro kv hkv
  have hmem := selKeys_mem g G kv hkv
  have hne := bucket_nonempty_of_mem_keys g.property_name G kv hmem
  constructor
  · exact hF2 _ hne
  · intro a ha
    have hin : a ∈ lookupBucket (bucketsOf g.property_name G) kv := hF1 _ ha
    rw [lookupBucket_bucketsOf, List.mem_filter, decide_eq_true_eq] at hin
    exact hin.2

theorem zip_self_map {β : Type} (l : List (Option PropValue)) (f : Option PropValue → β) :
    l.zip (l.map f) = l.map (fun kv => (kv, f kv)) := by
  induction l with
  | nil => rfl
  | cons x xs ih => simp [ih]

theorem filterMap_fst_eq (M : List (Option PropValue × List Artifact)) :
    M.filterMap (fun q => q.1) = (keysOf M).filterMap id := by
  rw [keysOf, List.filterMap_map]
  rfl

theorem lookup_zip_of_mem (bkeys : List (Option PropValue))
    (f : Option PropValue → List Artifact) (hnd : bkeys.Nodup)
    (kv : Option PropValue) (hkv : kv ∈ bkeys) :
    lookupBucket (bkeys.zip (bkeys.map f)) kv = f kv := by
  apply entry_lookupBucket
  · rw [keysOf]
    rw [List.map_fst_zip _ _ (by rw [List.length_map])]
    exact hnd
  · rw [zip_self_map]
    exact List.mem_map.mpr ⟨kv, hkv, rfl⟩

/-- Re-selecting over the survivors of a selection returns exactly the
per-block survivors: the core of property-group idempotence. -/
theorem selPure_idem_blocks (g : Grouping) (G : List Artifact)
    (F : List Artifact → List Artifact)
    (hF1 : ∀ T, F T ⊆ T) (hF2 : ∀ T, T ≠ [] → F T ≠ []) :
    selPure g (((selPure g G).map F).flatten) = (selPure g G).map F := by
  have hf2 := selKeys_blocks_forall₂ g G F hF1 hF2
  have hnd := selKeys_nodup g G
  have hUC : bucketsOf g.property_name (((selPure g G).map F).flatten) =
      (selKeys g G).zip ((selPure g G).map F) :=
    bucketsOf_flatten_uniform g.property_name (selKeys g G) ((selPure g G).map F) hf2 hnd
  have hlen := hf2.length_eq
  have hblocks : (selPure g G).map F =
      (selKeys g G).map (fun kv => F (lookupBucket (bucketsOf g.property_name G) kv)) := by
    rw [selPure_eq_keys_map, List.map_map]
    rfl
  have hlookup : ∀ kv ∈ selKeys g G,
      lookupBucket ((selKeys g G).zip ((selPure g G).map F)) kv =
        F (lookupBucket (bucketsOf g.property_name G) kv) := by
    intro kv hkv
    rw [hblocks]
    exact lookup_zip_of_mem _ _ hnd kv hkv
  have hkeys2 : keysOf ((selKeys g G).zip ((selPure g G).map F)) = selKeys g G := by
    rw [keysOf]
    exact List.map_fst_zip _ _ (le_of_eq hlen)
  set blocks := (selPure g G).map F with hblocksdef
  by_cases hk : g.keep_num ≤ 0
  · rw [show selPure g blocks.flatten =
        selPureM g (bucketsOf g.property_name blocks.flatten) from rfl]
    rw [hUC, selPureM, if_pos hk]
    exact List.map_snd_zip _ _ (le_of_eq hlen.symm)
  · have hfm : ((selKeys g G).zip blocks).filterMap (fun q => q.1) =
        (selKeys g G).filterMap id := by
      rw [filterMap_fst_eq, hkeys2]
    have hWsorted : (keptValues g (sortPV ((bucketsOf g.property_name G).filterMap
        (fun q => q.1)))).Pairwise (fun a b => PropValue.le a b = true) :=
      (sortPV_pairwise _).sublist (keptValues_sublist g _)
    have hWlen := keptValues_length_le g
      (sortPV ((bucketsOf g.property_name G).filterMap (fun q => q.1)))
    set W := keptValues g (sortPV ((bucketsOf g.property_name G).filterMap
      (fun q => q.1))) with hWdef
    have hWchain : keptValues g (sortPV ((selKeys g G).filterMap id)) = W := by
      have h1 : (selKeys g G).filterMap id = W := by
        simp only [selKeys, if_neg hk, ← hWdef]
        split
        · rw [List.filterMap_append, List.filterMap_map]
          have h2 : W.filterMap (id ∘ some) = W := List.filterMap_some W
          rw [h2]
          simp
        · rw [List.filterMap_map]
          exact List.filterMap_some W
      rw [h1, sortPV_of_sorted W hWsorted]
      exact keptValues_of_short g W hWlen
    rw [show selPure g blocks.flatten =
        selPureM g (bucketsOf g.property_name blocks.flatten) from rfl]
    rw [hUC]
    simp only [selPureM, if_neg hk, hfm, hWchain]
    by_cases hcond : ((bucketsOf g.property_name G).any (fun q => q.1.isNone)) = true ∧
        ((W.length : Int) < g.keep_num)
    · have hselkeys : selKeys g G = W.map some ++ [none] := by
        simp only [selKeys, if_neg hk, ← hWdef, if_pos hcond]
      have hany2 : (((selKeys g G).zip blocks).any
          (fun q => q.1.isNone)) = true := by
        rw [any_isNone_iff, hkeys2, hselkeys]
        exact List.mem_append.mpr (Or.inr (List.mem_singleton.mpr rfl))
      rw [if_pos ⟨hany2, hcond.2⟩]
      have hleft : W.map (fun v => lookupBucket
          ((selKeys g G).zip blocks) (some v)) =
          W.map (fun v => F (lookupBucket (bucketsOf g.property_name G) (some v))) := by
        apply List.map_congr_left
        intro v hv
        apply hlookup
        rw [hselkeys]
        exact List.mem_append.mpr (Or.inl (List.mem_map.mpr ⟨v, hv, rfl⟩))
      have hnull : lookupBucket ((selKeys g G).zip blocks) none =
          F (lookupBucket (bucketsOf g.property_name G) none) := by
        apply hlookup
        rw [hselkeys]
        exact List.mem_append.mpr (Or.inr (List.mem_singleton.mpr rfl))
      rw [hleft, hnull]
      rw [hblocks, hselkeys]
      rw [List.map_append, List.map_map]
      rfl
    · have hselkeys : selKeys g G = W.map some := by
        simp only [selKeys, if_neg hk, ← hWdef, if_neg hcond]
      have hany2 : ¬ ((((selKeys g G).zip blocks).any
          (fun q => q.1.isNone)) = true ∧ ((W.length : Int) < g.keep_num)) := by
        rintro ⟨h1, -⟩
        rw [any_isNone_iff, hkeys2, hselkeys] at h1
        rw [List.mem_map] at h1
        obtain ⟨v, -, hv⟩ := h1
        exact Option.some_ne_none v hv
      rw [if_neg hany2]
      have hleft : W.map (fun v => lookupBucket
          ((selKeys g G).zip blocks) (some v)) =
          W.map (fun v => F (lookupBucket (bucketsOf g.property_name G) (some v))) := by
        apply List.map_congr_left
        intro v hv
        apply hlookup
        rw [hselkeys]
        exact List.mem_map.mpr ⟨v, hv, rfl⟩
      rw [hleft]
      rw [hblocks, hselkeys]
      rw [List.map_map]
      rfl

theorem surv_subset : ∀ (gs : List Grouping) (G : List Artifact), surv gs G ⊆ G := by
  intro gs
  induction gs with
  | nil => intro G a ha; exact ha
  | cons g rest ih =>
    intro G a ha
    simp only [surv] at ha
    rw [List.mem_flatten] at ha
    obtain ⟨l, hl, hal⟩ := ha
    rw [List.mem_map] at hl
    obtain ⟨B, hB, hlB⟩ := hl
    subst hlB
    exact selPure_group_subset g G B hB (ih B hal)

theorem keptValues_ne_nil (g : Grouping) (l : List PropValue) (hl : l ≠ [])
    (hkk : 0 < g.keep_num.toNat) : keptValues g l ≠ [] := by
  have hlen : 0 < l.length := List.length_pos_of_ne_nil hl
  rw [keptValues]
  split <;> intro hnil <;>
    (have hlen0 := congrArg List.length hnil) <;>
    simp only [List.length_drop, List.length_take, List.length_nil] at hlen0 <;> omega

theorem selPure_nonempty (g : Grouping) (G : List Artifact) (hG : G ≠ []) :
    selPure g G ≠ [] := by
  rw [selPure_eq_keys_map]
  intro hnil
  rw [List.map_eq_nil_iff] at hnil
  obtain ⟨a, ha⟩ := List.exists_mem_of_ne_nil G hG
  have hkey : _get_property_value a g.property_name ∈ keysOf (bucketsOf g.property_name G) :=
    (mem_keysOf_bucketsOf _ _ _).mpr ⟨a, ha, rfl⟩
  by_cases hk : g.keep_num ≤ 0
  · simp only [selKeys, if_pos hk] at hnil
    rw [hnil] at hkey
    exact absurd hkey (List.not_mem_nil _)
  · have hkk : 0 < g.keep_num.toNat := by omega
    simp only [selKeys, if_neg hk] at hnil
    split at hnil
    · exact absurd hnil (by simp)
    · rename_i hcond
      rw [List.map_eq_nil_iff] at hnil
      apply hcond
      have hzero : (keptValues g (sortPV ((bucketsOf g.property_name G).filterMap
          (fun q => q.1)))).length = 0 := by rw [hnil]; rfl
      refine ⟨?_, by rw [hzero]; exact_mod_cast (by omega : (0 : Int) < g.keep_num)⟩
      cases hpv : _get_property_value a g.property_name with
      | none =>
        rw [any_isNone_iff]
        rw [hpv] at hkey
        exact hkey
      | some v =>
        exfalso
        have hvmem : v ∈ (bucketsOf g.property_name G).filterMap (fun q => q.1) := by
          rw [mem_filterMap_fst]
          rw [hpv] at hkey
          exact hkey
        have hsortne : sortPV ((bucketsOf g.property_name G).filterMap
            (fun q => q.1)) ≠ [] := by
          intro hnil2
          have hmm := ((sortPV_perm _).mem_iff).mpr hvmem
          rw [hnil2] at hmm
          exact absurd hmm (List.not_mem_nil v)
        exact keptValues_ne_nil g _ hsortne hkk hnil

theorem surv_nonempty : ∀ (gs : List Grouping) (G : List Artifact), G ≠ [] →
    surv gs G ≠ [] := by
  intro gs
  induction gs with
  | nil => intro G hG; exact hG
  | cons g rest ih =>
    intro G hG
    simp only [surv]
    obtain ⟨B, hB⟩ := List.exists_mem_of_ne_nil _ (selPure_nonempty g G hG)
    have hBne : B ≠ [] := selPure_group_nonempty g G B hB
    have hsne : surv rest B ≠ [] := ih B hBne
    obtain ⟨b, hb⟩ := List.exists_mem_of_ne_nil _ hsne
    exact List.ne_nil_of_mem (List.mem_flatten.mpr
      ⟨surv rest B, List.mem_map.mpr ⟨B, hB, rfl⟩, hb⟩)

/-- Depth-first survivors are idempotent at the list level. -/
theorem surv_idempotent : ∀ (gs : List Grouping), ∀ G,
    surv gs (surv gs G) = surv gs G := by
  intro gs
  induction gs with
  | nil => intro G; rfl
  | cons g rest ih =>
    intro G
    rw [show surv (g :: rest) G = ((selPure g G).map (surv rest)).flatten from rfl]
    rw [show surv (g :: rest) (((selPure g G).map (surv rest)).flatten) =
        ((selPure g (((selPure g G).map (surv rest)).flatten)).map (surv rest)).flatten
      from rfl]
    rw [selPure_idem_blocks g G (surv rest) (surv_subset rest)
      (fun T hT => surv_nonempty rest T hT)]
    rw [List.map_map]
    have hcong : (selPure g G).map (surv rest ∘ surv rest) =
        (selPure g G).map (surv rest) :=
      List.map_congr_left (fun B _ => ih B)
    rw [hcong]

/-! ### Member-set congruence of the pure evaluator -/

theorem filterMap_fst_perm_congr (p : String) (G G' : List Artifact)
    (h : ∀ a, a ∈ G ↔ a ∈ G') :
    List.Perm ((bucketsOf p G).filterMap (fun q => q.1))
      ((bucketsOf p G').filterMap (fun q => q.1)) := by
  apply perm_of_nodup_mem_iff _ _
    (nodup_filterMap_fst _ (nodup_keysOf_bucketsOf _ _))
    (nodup_filterMap_fst _ (nodup_keysOf_bucketsOf _ _))
  intro v
  rw [mem_filterMap_fst, mem_filterMap_fst, mem_keysOf_bucketsOf, mem_keysOf_bucketsOf]
  constructor <;> rintro ⟨a, ha, hpa⟩
  · exact ⟨a, (h a).mp ha, hpa⟩
  · exact ⟨a, (h a).mpr ha, hpa⟩

theorem sorted_fst_congr (p : String) (G G' : List Artifact)
    (h : ∀ a, a ∈ G ↔ a ∈ G') :
    sortPV ((bucketsOf p G).filterMap (fun q => q.1)) =
      sortPV ((bucketsOf p G').filterMap (fun q => q.1)) :=
  sortPV_eq_of_perm _ _ (filterMap_fst_perm_congr p G G' h)

theorem none_key_congr (p : String) (G G' : List Artifact)
    (h : ∀ a, a ∈ G ↔ a ∈ G') :
    (((bucketsOf p G).any (fun q => q.1.isNone)) = true ↔
      ((bucketsOf p G').any (fun q => q.1.isNone)) = true) := by
  rw [any_isNone_iff, any_isNone_iff, mem_keysOf_bucketsOf, mem_keysOf_bucketsOf]
  constructor <;> rintro ⟨a, ha, hpa⟩
  · exact ⟨a, (h a).mp ha, hpa⟩
  · exact ⟨a, (h a).mpr ha, hpa⟩

theorem selKeys_mem_congr (g : Grouping) (G G' : List Artifact)
    (h : ∀ a, a ∈ G ↔ a ∈ G') (kv : Option PropValue) :
    kv ∈ selKeys g G ↔ kv ∈ selKeys g G' := by
  by_cases hk : g.keep_num ≤ 0
  · simp only [selKeys, if_pos hk]
    rw [mem_keysOf_bucketsOf, mem_keysOf_bucketsOf]
    constructor <;> rintro ⟨a, ha, hpa⟩
    · exact ⟨a, (h a).mp ha, hpa⟩
    · exact ⟨a, (h a).mpr ha, hpa⟩
  · have hsort := sorted_fst_congr g.property_name G G' h
    have hany := none_key_congr g.property_name G G' h
    simp only [selKeys, if_neg hk, hsort]
    by_cases hc : ((bucketsOf g.property_name G').any (fun q => q.1.isNone)) = true ∧
        ((keptValues g (sortPV ((bucketsOf g.property_name G').filterMap
          (fun q => q.1)))).length : Int) < g.keep_num
    · rw [if_pos ⟨hany.mpr hc.1, hc.2⟩, if_pos hc]
    · rw [if_neg (fun hcc => hc ⟨hany.mp hcc.1, hcc.2⟩), if_neg hc]

theorem mem_surv_cons (g : Grouping) (rest : List Grouping) (G : List Artifact)
    (x : Artifact) :
    x ∈ surv (g :: rest) G ↔ ∃ kv ∈ selKeys g G,
      x ∈ surv rest (G.filter
        (fun a => decide (_get_property_value a g.property_name = kv))) := by
  rw [show surv (g :: rest) G = ((selPure g G).map (surv rest)).flatten from rfl]
  rw [selPure_eq_keys_map, List.map_map, List.mem_flatten]
  constructor
  · rintro ⟨l, hl, hx⟩
    rw [List.mem_map] at hl
    obtain ⟨kv, hkv, hlkv⟩ := hl
    subst hlkv
    simp only [Function.comp_apply] at hx
    rw [lookupBucket_bucketsOf] at hx
    exact ⟨kv, hkv, hx⟩
  · rintro ⟨kv, hkv, hx⟩
    refine ⟨surv rest (lookupBucket (bucketsOf g.property_name G) kv),
      List.mem_map.mpr ⟨kv, hkv, rfl⟩, ?_⟩
    rw [lookupBucket_bucketsOf]
    exact hx

theorem surv_mem_congr : ∀ (gs : List Grouping) (G G' : List Artifact),
    (∀ a, a ∈ G ↔ a ∈ G') → ∀ x, x ∈ surv gs G ↔ x ∈ surv gs G' := by
  intro gs
  induction gs with
  | nil => intro G G' h x; exact h x
  | cons g rest ih =>
    intro G G' h x
    rw [mem_surv_cons, mem_surv_cons]
    constructor <;> rintro ⟨kv, hkv, hx⟩
    · refine ⟨kv, (selKeys_mem_congr g G G' h kv).mp hkv, ?_⟩
      exact (ih _ _ (fun a => by simp only [List.mem_filter, h a]) x).mp hx
    · refine ⟨kv, (selKeys_mem_congr g G G' h kv).mpr hkv, ?_⟩
      exact (ih _ _ (fun a => by simp only [List.mem_filter, h a]) x).mpr hx

/-- KeepPropertyValueGroups is idempotent: re-evaluating on the kept
artifacts deletes nothing further. -/
theorem kpvg_idempotent (A : List Artifact) (kpvg : KeepPropertyValueGroups)
    (hids : (A.map (fun a => a.id)).Nodup)
    (hwf : ∀ g ∈ kpvg.groupings, wfOrder g)
    (hhom : ∀ g ∈ kpvg.groupings, homogeneousOn g.property_name A)
    (D : List Artifact)
    (hD : _artifacts_not_kept_by_property_value_groups A kpvg = .ok D) :
    _artifacts_not_kept_by_property_value_groups (keptAfter A D) kpvg = .ok [] := by
  have hpg1 := processGroupings_ok A kpvg.groupings [A] hwf hhom
    (by
      intro G hG
      rw [List.mem_singleton] at hG
      subst hG
      exact fun x hx => hx)
  simp only [_artifacts_not_kept_by_property_value_groups, hpg1, Except.ok.injEq] at hD
  have hflat : (bfsPure kpvg.groupings [A]).flatten = surv kpvg.groupings A := by
    rw [bfsPure_flatten_eq_surv]
    simp
  have hsubB : ∀ B ∈ bfsPure kpvg.groupings [A], B ⊆ A := by
    intro B hB x hx
    have hxf : x ∈ (bfsPure kpvg.groupings [A]).flatten := List.mem_flatten.mpr ⟨B, hB, hx⟩
    rw [hflat] at hxf
    exact surv_subset _ _ hxf
  have hexB : ∀ x : Artifact,
      (∃ B ∈ bfsPure kpvg.groupings [A], x ∈ B) ↔ x ∈ surv kpvg.groupings A := by
    intro x
    rw [← hflat, List.mem_flatten]
  have hmemD : ∀ x ∈ A, (x ∈ D ↔ x ∉ surv kpvg.groupings A) := by
    intro x hx
    rw [← hD, List.mem_filter, decide_eq_true_eq,
      mem_ids_flatten _ x A hids hx hsubB, hexB]
    exact ⟨fun hh => hh.2, fun hh => ⟨hx, hh⟩⟩
  have hmemK : ∀ x, x ∈ keptAfter A D ↔ x ∈ surv kpvg.groupings A := by
    intro x
    rw [keptAfter, List.mem_filter, decide_eq_true_eq]
    constructor
    · rintro ⟨hx, hnd⟩
      by_contra hns
      exact hnd ((hmemD x hx).mpr hns)
    · intro hs
      have hx : x ∈ A := surv_subset _ _ hs
      exact ⟨hx, fun hdmem => ((hmemD x hx).mp hdmem) hs⟩
  have hKsub : keptAfter A D ⊆ A := fun x hx => (List.mem_filter.mp hx).1
  have hpg2 := processGroupings_ok A kpvg.groupings [keptAfter A D] hwf hhom
    (by
      intro G hG
      rw [List.mem_singleton] at hG
      subst hG
      exact hKsub)
  simp only [_artifacts_not_kept_by_property_value_groups, hpg2, Except.ok.injEq]
  have hflat2 : (bfsPure kpvg.groupings [keptAfter A D]).flatten =
      surv kpvg.groupings (keptAfter A D) := by
    rw [bfsPure_flatten_eq_surv]
    simp
  have hsubB2 : ∀ B ∈ bfsPure kpvg.groupings [keptAfter A D], B ⊆ A := by
    intro B hB x hx
    have hxf : x ∈ (bfsPure kpvg.groupings [keptAfter A D]).flatten :=
      List.mem_flatten.mpr ⟨B, hB, hx⟩
    rw [hflat2] at hxf
    exact hKsub (surv_subset _ _ hxf)
  rw [List.filter_eq_nil_iff]
  intro a haK
  rw [decide_eq_true_eq]
  intro hnot
  apply hnot
  rw [mem_ids_flatten _ a A hids (hKsub haK) hsubB2]
  rw [show (∃ B ∈ bfsPure kpvg.groupings [keptAfter A D], a ∈ B) ↔
      a ∈ surv kpvg.groupings (keptAfter A D) by rw [← hflat2, List.mem_flatten]]
  have ha1 : a ∈ surv kpvg.groupings A := (hmemK a).mp haK
  have ha2 : a ∈ surv kpvg.groupings (surv kpvg.groupings A) := by
    rw [surv_idempotent]
    exact ha1
  exact (surv_mem_congr kpvg.groupings (surv kpvg.groupings A) (keptAfter A D)
    (fun x => (hmemK x).symm) a).mp ha2

/-- Claim C9: GC is idempotent at the policy level.  For every artifact
list `A` with unique ids and every policy whose configuration is
well-formed over `A` (declared keep orders, homogeneous value types): if
the first evaluation returns delete-set `D`, re-evaluating the policy on
the artifacts it kept (`A` minus `D`) returns the empty delete-set, for
KeepMostRecentlyPublished, KeepPropertyValueGroups and the unset variant
alike. -/
theorem gc_policy_idempotent (A : List Artifact) (policy : GarbageCollectionPolicy)
    (hids : (A.map (fun a => a.id)).Nodup)
    (hwfp : policyWellFormed A policy)
    (D : List Artifact)
    (hD : _artifacts_to_garbage_collect_for_policy A policy = .ok D) :
    _artifacts_to_garbage_collect_for_policy (keptAfter A D) policy = .ok [] := by
  cases hv : policy.variant with
  | keep_most_recently_published kmrp =>
    simp only [_artifacts_to_garbage_collect_for_policy, hv, Except.ok.injEq] at hD ⊢
    rw [← hD, kmrp_idempotent]
  | keep_property_value_groups kpvg =>
    simp only [_artifacts_to_garbage_collect_for_policy, hv] at hD ⊢
    simp only [policyWellFormed, hv] at hwfp
    exact kpvg_idempotent A kpvg hids (fun g hg => (hwfp g hg).1)
      (fun g hg => (hwfp g hg).2) D hD
  | unset =>
    simp only [_artifacts_to_garbage_collect_for_policy, hv, Except.ok.injEq] at hD ⊢

/-- Witness for claim C9 on the spec's span example: the first pass over
spans 1, 1, 2, 3 deletes the span-1, 1, 2 artifacts and the second pass
over the kept artifacts deletes nothing. -/
theorem gc_policy_idempotent_witness :
    ((spanA.map (fun a => a.id)).Nodup ∧
      policyWellFormed spanA spanPolicyC9 ∧
      _artifacts_to_garbage_collect_for_policy spanA spanPolicyC9 =
        .ok [spanArt 1 1, spanArt 2 1, spanArt 3 2]) ∧
    _artifacts_to_garbage_collect_for_policy
        (keptAfter spanA [spanArt 1 1, spanArt 2 1, spanArt 3 2]) spanPolicyC9 =
      .ok [] :=
  have hwfp : policyWellFormed spanA spanPolicyC9 := by
    intro g hg
    rw [List.mem_singleton] at hg
    subst hg
    exact ⟨Or.inr (Or.inl rfl), by unfold homogeneousOn; decide⟩
  ⟨⟨by decide, hwfp, by rfl⟩,
    gc_policy_idempotent spanA spanPolicyC9 (by decide) hwfp
      [spanArt 1 1, spanArt 2 1, spanArt 3 2] (by rfl)⟩
